import Mathlib

/-!
# QtAssistant: filter registry, message dispatch and welcome store

A shallow embedding of

* `src/CoolQPortal/CoolQServiceModule.cpp`: `ServiceModule::initialize`,
  `ServiceModule::privateMessageEvent`, `groupMessageEvent`,
  `discussMessageEvent`, `ServiceModulePrivate::installFilter`,
  `ServiceModulePrivate::result`, `ServiceModule::emojiChar`;
* `src/sqldatas/memberwelcome.cpp`: `MemberWelcome::addMember`,
  `removeMember`, `members`, `expiredMembers`.

Objects are referred to by pointer (`FilterPtr`); the virtual methods of
`MessageFilter`, whose class is declared in a header that is not part of the
sources at hand, are collected in `Env`.  Filter handlers may have side
effects, so every handler threads a world state `σ`.
-/

namespace CoolQ

/-- A `QByteArray`: a sequence of bytes (`char` values taken as `0..255`). -/
abbrev QByteArray := List Nat

/-- A `QString`: a sequence of UTF-16 code units. -/
abbrev QString := List Nat

/-- A non-null `MessageFilter *`.  `installFilter` checks the pointer with
`Q_CHECK_PTR`, and `initialize` dereferences every registered pointer, so the
null pointer is excluded by the type. -/
abbrev FilterPtr := Nat

/-- A `QHash<K, V>`: the entries in iteration order.  The iteration order of a
`QHash` is unspecified; the list order stands for whatever it is. -/
abbrev QHash (κ ν : Type) := List (κ × ν)

namespace QHash

variable {κ ν : Type} [DecidableEq κ]

/-- `QHash::value(key)`: the value stored under `key`, if any. -/
def value (m : QHash κ ν) (k : κ) : Option ν :=
  (m.find? (fun e => decide (e.1 = k))).map Prod.snd

/-- `QHash::contains(key)`. -/
def contains (m : QHash κ ν) (k : κ) : Bool :=
  m.any (fun e => decide (e.1 = k))

/-- `QHash::remove(key)`. -/
def remove (m : QHash κ ν) (k : κ) : QHash κ ν :=
  m.filter (fun e => !decide (e.1 = k))

/-- `QHash::insert(key, value)`: an item already stored under `key` is
replaced. -/
def insert (m : QHash κ ν) (k : κ) (v : ν) : QHash κ ν :=
  (k, v) :: remove m k

/-- Number of entries stored under `key`. -/
def entries (m : QHash κ ν) (k : κ) : Nat :=
  (m.filter (fun e => decide (e.1 = k))).length

end QHash

/-- The three kinds of message event. -/
inductive Audience
  | Private
  | Group
  | Discuss
  deriving DecidableEq, Repr

/-- `MessageEvent`: the part the dispatcher reads is `gbkMsg`, of which the
bytes `0..32` are inspected. -/
structure MessageEvent where
  gbkMsg : List Nat
  capacity : gbkMsg.length = 33

/-- What `CoolQServiceModule.cpp` uses but does not define: the audience flags
of `MessageFilter`, the codec `trGbk`, and the virtual methods of the filter
behind each pointer (`initializeFilter` is `MessageFilter::initialize`). -/
structure Env (σ : Type) where
  PrivateFilter : Nat
  GroupFilter : Nat
  DiscussFilter : Nat
  trGbk : QString → QByteArray
  filters : FilterPtr → Nat
  keywords : FilterPtr → List QString
  initializeFilter : FilterPtr → σ → Bool × σ
  privateMessageFilter : FilterPtr → Nat → MessageEvent → σ → Bool × σ
  groupMessageFilter : FilterPtr → Nat → MessageEvent → σ → Bool × σ
  discussMessageFilter : FilterPtr → Nat → MessageEvent → σ → Bool × σ

/-- The filter containers of `ServiceModulePrivate`, as
`CoolQServiceModule.cpp` uses them: `filters` and the three catch-all chains
are lists (`append`, `isEmpty`, iteration in order), the three keyword indices
are hashes from the encoded keyword to the filter (`insert`, `value`), like the
`QHash<QByteArray, MessageFilter *>` members of `CqServiceModule_p.h`. -/
structure ServiceModulePrivate where
  filters : List FilterPtr
  privateFilters : List FilterPtr
  groupFilters : List FilterPtr
  discussFilters : List FilterPtr
  privateKeywordFilters : QHash QByteArray FilterPtr
  groupKeywordFilters : QHash QByteArray FilterPtr
  discussKeywordFilters : QHash QByteArray FilterPtr
  deriving DecidableEq, Repr

namespace Env

variable {σ : Type}

/-- The flag constant of an audience. -/
def flag (env : Env σ) : Audience → Nat
  | .Private => env.PrivateFilter
  | .Group => env.GroupFilter
  | .Discuss => env.DiscussFilter

/-- The test `filter->filters() & MessageFilter::XFilter`. -/
def handles (env : Env σ) (a : Audience) (f : FilterPtr) : Bool :=
  decide (env.filters f &&& env.flag a ≠ 0)

/-- The message handler of a filter for an audience. -/
def messageFilter (env : Env σ) :
    Audience → FilterPtr → Nat → MessageEvent → σ → Bool × σ
  | .Private => env.privateMessageFilter
  | .Group => env.groupMessageFilter
  | .Discuss => env.discussMessageFilter

end Env

namespace ServiceModulePrivate

/-- The catch-all chain of an audience. -/
def chain (d : ServiceModulePrivate) : Audience → List FilterPtr
  | .Private => d.privateFilters
  | .Group => d.groupFilters
  | .Discuss => d.discussFilters

/-- The keyword index of an audience. -/
def index (d : ServiceModulePrivate) : Audience → QHash QByteArray FilterPtr
  | .Private => d.privateKeywordFilters
  | .Group => d.groupKeywordFilters
  | .Discuss => d.discussKeywordFilters

/-- Replace the catch-all chain of an audience. -/
def setChain (d : ServiceModulePrivate) (a : Audience) (c : List FilterPtr) :
    ServiceModulePrivate :=
  match a with
  | .Private => { d with privateFilters := c }
  | .Group => { d with groupFilters := c }
  | .Discuss => { d with discussFilters := c }

/-- Replace the keyword index of an audience. -/
def setIndex (d : ServiceModulePrivate) (a : Audience)
    (m : QHash QByteArray FilterPtr) : ServiceModulePrivate :=
  match a with
  | .Private => { d with privateKeywordFilters := m }
  | .Group => { d with groupKeywordFilters := m }
  | .Discuss => { d with discussKeywordFilters := m }

/-- `ServiceModulePrivate::installFilter`. -/
def installFilter (d : ServiceModulePrivate) (filter : FilterPtr) :
    ServiceModulePrivate :=
  { d with filters := d.filters ++ [filter] }

end ServiceModulePrivate

/-! ## `ServiceModule::initialize` -/

section Initialize

variable {σ : Type}

/-- First loop of `initialize`: every filter is asked to set itself up, in
registration order; the first failure ends the loop. -/
def initializeFilters (env : Env σ) : List FilterPtr → σ → Bool × σ
  | [], w => (true, w)
  | f :: fs, w =>
    if (env.initializeFilter f w).1 then initializeFilters env fs (env.initializeFilter f w).2
    else (false, (env.initializeFilter f w).2)

/-- The loop `for (keyword : filter->keywords()) index.insert(trGbk(keyword), filter)`. -/
def insertKeywords (env : Env σ) (f : FilterPtr) :
    List QString → QHash QByteArray FilterPtr → QHash QByteArray FilterPtr
  | [], m => m
  | k :: ks, m => insertKeywords env f ks (QHash.insert m (env.trGbk k) f)

/-- One of the three `if (filter->filters() & XFilter) { ... }` blocks. -/
def classifyFor (env : Env σ) (a : Audience) (f : FilterPtr)
    (d : ServiceModulePrivate) : ServiceModulePrivate :=
  if env.handles a f then
    if (env.keywords f).isEmpty then d.setChain a (d.chain a ++ [f])
    else d.setIndex a (insertKeywords env f (env.keywords f) (d.index a))
  else d

/-- Body of the second loop of `initialize` for one filter. -/
def classify (env : Env σ) (d : ServiceModulePrivate) (f : FilterPtr) :
    ServiceModulePrivate :=
  classifyFor env .Discuss f (classifyFor env .Group f (classifyFor env .Private f d))

/-- The function `ServiceModule::initialize` (the bare name is reserved in
Lean): result, containers afterwards, world afterwards. -/
def initializeModule (env : Env σ) (d : ServiceModulePrivate) (w : σ) :
    Bool × ServiceModulePrivate × σ :=
  if (initializeFilters env d.filters w).1 then
    (true, d.filters.foldl (classify env) d, (initializeFilters env d.filters w).2)
  else
    (false, d, (initializeFilters env d.filters w).2)

/-- The world after the filters of `pre` were initialised in turn. -/
def initWorld (env : Env σ) (pre : List FilterPtr) (w : σ) : σ :=
  pre.foldl (fun w f => (env.initializeFilter f w).2) w

/-- Every filter of `fs`, initialised in turn from world `w`, reports
success. -/
def AllInitialize (env : Env σ) (fs : List FilterPtr) (w : σ) : Prop :=
  ∀ j, j < fs.length →
    (env.initializeFilter (fs.getD j 0) (initWorld env (fs.take j) w)).1 = true

/-- Filter `f`, registered right after `pre`, is the first whose own
initialisation reports failure. -/
def FirstInitFailure (env : Env σ) (pre : List FilterPtr) (f : FilterPtr)
    (w : σ) : Prop :=
  AllInitialize env pre w ∧ (env.initializeFilter f (initWorld env pre w)).1 = false

/-- Filter `f` handles audience `a` and declares a keyword whose encoding is
`key`. -/
def declaresKey (env : Env σ) (a : Audience) (key : QByteArray) (f : FilterPtr) :
    Bool :=
  env.handles a f && (env.keywords f).any (fun k => decide (env.trGbk k = key))

/-- Filter `f` handles audience `a` and declares no keyword. -/
def isCatchAll (env : Env σ) (a : Audience) (f : FilterPtr) : Bool :=
  env.handles a f && (env.keywords f).isEmpty

end Initialize

/-! ## Message dispatch -/

/-- What a message-event handler does that can be seen from outside: a call of
a filter handler with a hint, or a lookup in the keyword index. -/
inductive Call
  | handler (f : FilterPtr) (hint : Nat)
  | lookup (key : QByteArray)
  deriving DecidableEq, Repr

/-- Outcome of a run: the boolean result, the world afterwards, and the calls
made, in order. -/
structure Run (σ : Type) where
  result : Bool
  world : σ
  calls : List Call

section Dispatch

variable {σ : Type}

/-- The loop over the catch-all chain: each filter is called with hint 0 and
the first one that returns true ends the handler. -/
def catchAllLoop (h : FilterPtr → Nat → MessageEvent → σ → Bool × σ)
    (ev : MessageEvent) : List FilterPtr → σ → Run σ
  | [], w => ⟨false, w, []⟩
  | f :: fs, w =>
    if (h f 0 ev w).1 then ⟨true, (h f 0 ev w).2, [Call.handler f 0]⟩
    else
      let r := catchAllLoop h ev fs (h f 0 ev w).2
      ⟨r.result, r.world, Call.handler f 0 :: r.calls⟩

/-- Whether byte `i` of the buffer is a null or a space. -/
def isSeparator (ev : MessageEvent) (i : Nat) : Bool :=
  decide (ev.gbkMsg.getD i 0 = 0) || decide (ev.gbkMsg.getD i 0 = 32)

/-- The loop `for (int i = 0; i < 33; ++i)`: `n` iterations remain and the
current position is `i`. -/
def keywordLoop (h : FilterPtr → Nat → MessageEvent → σ → Bool × σ)
    (idx : QHash QByteArray FilterPtr) (ev : MessageEvent) :
    Nat → Nat → σ → Run σ
  | 0, _, w => ⟨false, w, []⟩
  | n + 1, i, w =>
    if isSeparator ev i then
      match QHash.value idx (ev.gbkMsg.take i) with
      | some f =>
        ⟨(h f i ev w).1, (h f i ev w).2,
          [Call.lookup (ev.gbkMsg.take i), Call.handler f i]⟩
      | none =>
        let r := keywordLoop h idx ev n (i + 1) w
        ⟨r.result, r.world, Call.lookup (ev.gbkMsg.take i) :: r.calls⟩
    else keywordLoop h idx ev n (i + 1) w

/-- The common shape of the three message-event handlers. -/
def messageEvent (h : FilterPtr → Nat → MessageEvent → σ → Bool × σ)
    (chain : List FilterPtr) (idx : QHash QByteArray FilterPtr)
    (ev : MessageEvent) (w : σ) : Run σ :=
  let c := catchAllLoop h ev chain w
  if c.result then c
  else
    let k := keywordLoop h idx ev 33 0 c.world
    ⟨k.result, k.world, c.calls ++ k.calls⟩

/-- `ServiceModule::privateMessageEvent`. -/
def privateMessageEvent (env : Env σ) (d : ServiceModulePrivate)
    (ev : MessageEvent) (w : σ) : Run σ :=
  messageEvent env.privateMessageFilter d.privateFilters d.privateKeywordFilters ev w

/-- `ServiceModule::groupMessageEvent`. -/
def groupMessageEvent (env : Env σ) (d : ServiceModulePrivate)
    (ev : MessageEvent) (w : σ) : Run σ :=
  messageEvent env.groupMessageFilter d.groupFilters d.groupKeywordFilters ev w

/-- `ServiceModule::discussMessageEvent`. -/
def discussMessageEvent (env : Env σ) (d : ServiceModulePrivate)
    (ev : MessageEvent) (w : σ) : Run σ :=
  messageEvent env.discussMessageFilter d.discussFilters d.discussKeywordFilters ev w

/-- The message-event handler of an audience. -/
def handleMessage (env : Env σ) (a : Audience) (d : ServiceModulePrivate)
    (ev : MessageEvent) (w : σ) : Run σ :=
  match a with
  | .Private => privateMessageEvent env d ev w
  | .Group => groupMessageEvent env d ev w
  | .Discuss => discussMessageEvent env d ev w

/-- The world after the filters of `pre` were called in turn with hint 0. -/
def worldAfter (h : FilterPtr → Nat → MessageEvent → σ → Bool × σ)
    (ev : MessageEvent) (pre : List FilterPtr) (w : σ) : σ :=
  pre.foldl (fun w f => (h f 0 ev w).2) w

/-- Every filter of `pre`, called in turn with hint 0 from world `w`, returns
false. -/
def AllDecline (h : FilterPtr → Nat → MessageEvent → σ → Bool × σ)
    (ev : MessageEvent) (pre : List FilterPtr) (w : σ) : Prop :=
  ∀ j, j < pre.length →
    (h (pre.getD j 0) 0 ev (worldAfter h ev (pre.take j) w)).1 = false

/-- Filter `f`, standing in the chain right after `pre`, is the first filter
whose handler returns true. -/
def FirstInterceptor (h : FilterPtr → Nat → MessageEvent → σ → Bool × σ)
    (ev : MessageEvent) (pre : List FilterPtr) (f : FilterPtr) (w : σ) : Prop :=
  AllDecline h ev pre w ∧ (h f 0 ev (worldAfter h ev pre w)).1 = true

/-- Whether a call is a call of a filter handler. -/
def Call.isHandler : Call → Bool
  | .handler _ _ => true
  | .lookup _ => false

/-- The calls of the catch-all filters of a chain, each with hint 0. -/
def catchAllCalls (chain : List FilterPtr) : List Call :=
  chain.map (fun f => Call.handler f 0)

/-- The lookups made at the separator positions among `i, ..., i + n - 1`. -/
def missedLookups (ev : MessageEvent) (i n : Nat) : List Call :=
  ((List.range' i n).filter (isSeparator ev)).map
    (fun q => Call.lookup (ev.gbkMsg.take q))

/-! ### Sample inputs -/

/-- A sample environment: flags 1, 2, 4; an identity codec; the world counts
handler calls; filters 2 and 7 intercept every message, the others none;
filter 7 declares the keyword `ping`, filter 8 the keywords `ping` and `a b`. -/
def sampleEnv : Env Nat where
  PrivateFilter := 1
  GroupFilter := 2
  DiscussFilter := 4
  trGbk := fun s => s
  filters := fun _ => 7
  keywords := fun f =>
    if f = 7 then [[112, 105, 110, 103]]
    else if f = 8 then [[112, 105, 110, 103], [97, 32, 98]]
    else []
  initializeFilter := fun f w => (decide (f ≠ 13), w)
  privateMessageFilter := fun f _ _ w => (decide (f = 2 ∨ f = 7), w + 1)
  groupMessageFilter := fun f _ _ w => (decide (f = 2 ∨ f = 7), w + 1)
  discussMessageFilter := fun f _ _ w => (decide (f = 2 ∨ f = 7), w + 1)

/-- The sample environment with one change: filter 8 handles group messages
only. -/
def groupOnlyEnv : Env Nat :=
  { sampleEnv with filters := fun f => if f = 8 then 2 else 7 }

/-- The container state with nothing registered. -/
def emptyModule : ServiceModulePrivate :=
  ⟨[], [], [], [], [], [], []⟩

/-- The buffer `ping 123` followed by null bytes. -/
def pingEvent : MessageEvent :=
  ⟨[112, 105, 110, 103, 32, 49, 50, 51, 0, 0, 0, 0, 0, 0, 0, 0, 0,
    0, 0, 0, 0, 0, 0, 0, 0, 0, 0, 0, 0, 0, 0, 0, 0], by decide⟩

/-- The buffer `a b` followed by null bytes. -/
def spacedEvent : MessageEvent :=
  ⟨[97, 32, 98, 0, 0, 0, 0, 0, 0, 0, 0, 0, 0, 0, 0, 0, 0,
    0, 0, 0, 0, 0, 0, 0, 0, 0, 0, 0, 0, 0, 0, 0, 0], by decide⟩

/-- A buffer of 33 bytes `x`, with neither a null nor a space. -/
def fullEvent : MessageEvent :=
  ⟨[120, 120, 120, 120, 120, 120, 120, 120, 120, 120, 120, 120, 120, 120, 120, 120, 120,
    120, 120, 120, 120, 120, 120, 120, 120, 120, 120, 120, 120, 120, 120, 120, 120], by decide⟩

end Dispatch

/-! ## `ServiceModulePrivate::result` -/

/-- `ServiceModule::Result`, with the two values the source documents. -/
inductive Result
  | NoError
  | Unknown
  deriving DecidableEq, Repr

/-- `ServiceModulePrivate::result`: `case 0` returns `NoError`, `case 1` breaks
out of the switch to the final `return Unknown`, `default` returns `Unknown`. -/
def ServiceModulePrivate.result (r : Int) : Result :=
  if r = 0 then Result.NoError
  else if r = 1 then Result.Unknown
  else Result.Unknown

/-! ## `ServiceModule::emojiChar` -/

/-- The conversion `char(x)`: the low eight bits. -/
def toChar (x : Nat) : Nat := x % 256

/-- `ServiceModule::emojiChar`: the five bytes written to `utf8Emoji`, which
`QString::fromUtf8` then decodes.  `value` is a `qint32`; the shifts and masks
are taken on its 32-bit pattern, of which only the bits 0..17 reach the
result, so that the kind of right shift a negative value gets is of no
consequence. -/
def emojiChar (value : Int) : List Nat :=
  [toChar 0xF0,
   toChar ((((value % 2 ^ 32).toNat >>> 0xC) &&& 0x3f) ||| 0x80),
   toChar ((((value % 2 ^ 32).toNat >>> 0x6) &&& 0x3f) ||| 0x80),
   toChar ((((value % 2 ^ 32).toNat >>> 0x0) &&& 0x3f) ||| 0x80),
   0]

/-- The standard UTF-8 encoding of a code point (RFC 3629), written from the
standard and not from the source: one to four bytes; the surrogates and the
values above `0x10FFFF` have no encoding. -/
def utf8Encode (c : Nat) : Option (List Nat) :=
  if c < 0x80 then some [c]
  else if c < 0x800 then some [0xC0 + c / 64, 0x80 + c % 64]
  else if c < 0x10000 then
    if 0xD800 ≤ c ∧ c ≤ 0xDFFF then none
    else some [0xE0 + c / 4096, 0x80 + c / 64 % 64, 0x80 + c % 64]
  else if c ≤ 0x10FFFF then
    some [0xF0 + c / 262144, 0x80 + c / 4096 % 64, 0x80 + c / 64 % 64, 0x80 + c % 64]
  else none

end CoolQ

/-! ## The welcome store (`src/sqldatas/memberwelcome.cpp`) -/

namespace MemberWelcome

open CoolQ

/-- `CoolQ::Member`: the pair `(gid, uid)`, compared by value. -/
abbrev Member := Int × Int

/-- A sum of `qint64` values as the machine computes it, in two's
complement. -/
def wrapInt64 (x : Int) : Int :=
  (x + 2 ^ 63) % 2 ^ 64 - 2 ^ 63

/-- The test `(iter.value() + 1800000) < now` of `expiredMembers`. -/
def isExpired (now stamp : Int) : Bool :=
  decide (wrapInt64 (stamp + 1800000) < now)

/-- `MemberWelcome::expiredMembers`, with the clock reading `now` as an
argument: the map is walked once, in its iteration order; an expired entry is
appended to `members` and removed from the map.  The result is the map and the
list afterwards. -/
def expiredMembers (now : Int) :
    QHash Member Int → List Member → QHash Member Int × List Member
  | [], members => ([], members)
  | (key, stamp) :: rest, members =>
    if isExpired now stamp then expiredMembers now rest (members ++ [key])
    else ((key, stamp) :: (expiredMembers now rest members).1,
          (expiredMembers now rest members).2)

/-- The stamps for which `stamp + 1800000` does not overflow a `qint64`. -/
def StampInRange (stamp : Int) : Prop :=
  -2 ^ 63 ≤ stamp ∧ stamp + 1800000 < 2 ^ 63

/-- A sample welcome map: two entries older than 30 minutes at time 3000000
and one younger. -/
def sampleWelcome : QHash Member Int :=
  [((1, 10), 0), ((1, 11), 1000000), ((2, 10), 5000000)]

/-- `CoolQ::SqliteService::Result`: the three values `memberwelcome.cpp`
returns. -/
inductive SqlResult
  | Done
  | NoChange
  | SqlError
  deriving DecidableEq, Repr

/-- The welcome store: the in-memory map `d->welcome` and the rows of the
table `[Welcome]`, whose primary key is `(gid, uid)`. -/
structure Store where
  welcome : QHash Member Int
  table : QHash Member Int
  deriving DecidableEq, Repr

/-- `MemberWelcome::addMember`, with the clock reading `now` and the outcome
`sqlOk` of the statement `REPLACE INTO [Welcome] VALUES(gid, uid, stamp)` as
arguments (`sqlOk = false` is `query.lastError().isValid()`).  A statement that
fails leaves the table as it was. -/
def addMember (gid uid : Int) (now : Int) (sqlOk : Bool) (s : Store) :
    SqlResult × Store :=
  if !QHash.contains s.welcome (gid, uid) then
    if !sqlOk then (SqlResult.SqlError, s)
    else
      (SqlResult.Done,
       { welcome := QHash.insert s.welcome (gid, uid) now,
         table := QHash.insert s.table (gid, uid) now })
  else (SqlResult.NoChange, s)

/-- `MemberWelcome::removeMember`, with the outcome `sqlOk` of the statement
`DELETE FROM [Welcome] WHERE [gid] = gid AND [uid] = uid` as an argument.  A
statement that fails leaves the table as it was. -/
def removeMember (gid uid : Int) (sqlOk : Bool) (s : Store) : SqlResult × Store :=
  if QHash.contains s.welcome (gid, uid) then
    if !sqlOk then (SqlResult.SqlError, s)
    else
      (SqlResult.Done,
       { welcome := QHash.remove s.welcome (gid, uid),
         table := QHash.remove s.table (gid, uid) })
  else (SqlResult.NoChange, s)

/-- `MemberWelcome::members`: the in-memory map. -/
def members (s : Store) : QHash Member Int :=
  s.welcome

/-- `MemberWelcome::expiredMembers` on the store: the function issues no SQL
statement, so the table stays as it is. -/
def expiredMembersOn (now : Int) (s : Store) (out : List Member) :
    Store × List Member :=
  ({ welcome := (expiredMembers now s.welcome out).1, table := s.table },
   (expiredMembers now s.welcome out).2)

/-- The in-memory map and the table hold the same stamp, or none, for every
member. -/
def Mirrors (s : Store) : Prop :=
  ∀ m : Member, QHash.value s.welcome m = QHash.value s.table m

/-- A mutation of the welcome store together with what the environment
supplies to it: the clock reading and the outcome of the SQL statement. -/
inductive Mutation
  | add (gid uid now : Int) (sqlOk : Bool)
  | remove (gid uid : Int) (sqlOk : Bool)
  | sweep (now : Int)
  deriving DecidableEq, Repr

/-- The store after one mutation. -/
def Mutation.apply : Mutation → Store → Store
  | .add gid uid now sqlOk, s => (addMember gid uid now sqlOk s).2
  | .remove gid uid sqlOk, s => (removeMember gid uid sqlOk s).2
  | .sweep now, s => (expiredMembersOn now s []).1

/-- The store after a sequence of mutations. -/
def runMutations (ms : List Mutation) (s : Store) : Store :=
  ms.foldl (fun s m => m.apply s) s

/-- The store over an empty table, as the constructor leaves it. -/
def emptyStore : Store :=
  { welcome := [], table := [] }

/-- A sample store: one member, welcomed at time 0, in memory and in the
table. -/
def sampleStore : Store :=
  { welcome := [((1, 10), 0)], table := [((1, 10), 0)] }

end MemberWelcome

namespace CoolQ

/-! ## `QHash`: lemmas -/

namespace QHash

variable {κ ν : Type} [DecidableEq κ]

theorem value_remove (m : QHash κ ν) (k k' : κ) :
    value (remove m k) k' = if k = k' then none else value m k' := by
  induction m with
  | nil => simp [remove, value]
  | cons e m ih =>
    unfold remove value at ih ⊢
    by_cases h1 : e.1 = k
    · subst h1
      by_cases h2 : e.1 = k'
      · simp [List.filter_cons, h2] at ih ⊢
      · simpa [List.filter_cons, List.find?_cons, h2] using ih
    · by_cases h2 : e.1 = k'
      · have h3 : ¬ k = k' := fun h => h1 (h2.trans h.symm)
        have h4 : ¬ k' = k := fun h => h3 h.symm
        simp [List.filter_cons, List.find?_cons, h2, h3, h4]
      · simpa [List.filter_cons, List.find?_cons, h1, h2] using ih

theorem value_insert (m : QHash κ ν) (k k' : κ) (v : ν) :
    value (insert m k v) k' = if k = k' then some v else value m k' := by
  by_cases h : k = k'
  · simp [insert, value, List.find?_cons, h]
  · have := value_remove m k k'
    unfold value at this ⊢
    simp only [insert, List.find?_cons, h, decide_False, if_false]
    simpa [h] using this

theorem entries_remove (m : QHash κ ν) (k k' : κ) :
    entries (remove m k) k' = if k = k' then 0 else entries m k' := by
  unfold entries remove
  rw [List.filter_filter]
  by_cases h : k = k'
  · subst h
    simp
  · simp only [h, if_false]
    congr 1
    apply List.filter_congr
    intro e _
    by_cases h2 : e.1 = k'
    · have h3 : ¬ e.1 = k := fun h4 => h (h4.symm.trans h2)
      simp [h2, h3]
      intro h5
      exact h (h5.symm)
    · simp [h2]

theorem entries_insert (m : QHash κ ν) (k k' : κ) (v : ν) :
    entries (insert m k v) k' = if k = k' then 1 else entries m k' := by
  have := entries_remove m k k'
  unfold entries at this ⊢
  by_cases h : k = k'
  · simp only [h, if_true] at this ⊢
    simp [insert, List.filter_cons, this]
  · simp only [h, if_false] at this ⊢
    simp [insert, List.filter_cons, h, this]

/-- In a map with distinct keys, an entry is what `value` finds under its
key. -/
theorem value_of_mem (m : QHash κ ν) (k : κ) (v : ν)
    (hkeys : (m.map Prod.fst).Nodup) (hmem : (k, v) ∈ m) :
    value m k = some v := by
  induction m with
  | nil => simp at hmem
  | cons e m ih =>
    rw [List.map_cons, List.nodup_cons] at hkeys
    rcases List.mem_cons.mp hmem with heq | hin
    · subst heq
      simp [value, List.find?_cons]
    · have hne : ¬ e.1 = k := by
        intro h
        apply hkeys.1
        rw [h]
        exact List.mem_map.mpr ⟨(k, v), hin, rfl⟩
      have := ih hkeys.2 hin
      unfold value at this ⊢
      simpa [List.find?_cons, hne] using this

theorem contains_remove_self (m : QHash κ ν) (k : κ) :
    contains (remove m k) k = false := by
  unfold contains remove
  rw [Bool.eq_false_iff]
  simp

theorem contains_eq_false_iff (m : QHash κ ν) (k : κ) :
    contains m k = false ↔ ∀ e, e ∈ m → e.1 ≠ k := by
  unfold contains
  rw [Bool.eq_false_iff]
  simp only [ne_eq, List.any_eq_true, decide_eq_true_eq, not_exists, not_and]

end QHash

/-! ## `ServiceModule::initialize`: lemmas -/

section InitializeLemmas

variable {σ : Type}

theorem allInitialize_cons (env : Env σ) (f : FilterPtr) (fs : List FilterPtr) (w : σ) :
    AllInitialize env (f :: fs) w ↔
      (env.initializeFilter f w).1 = true ∧
        AllInitialize env fs (env.initializeFilter f w).2 := by
  constructor
  · intro hd
    refine ⟨by simpa [initWorld] using hd 0 (by simp), ?_⟩
    intro j hj
    have := hd (j + 1) (by simpa using hj)
    simpa [initWorld] using this
  · rintro ⟨h0, hrest⟩ j hj
    cases j with
    | zero => simpa [initWorld] using h0
    | succ j =>
      have := hrest j (by simpa using hj)
      simpa [initWorld] using this

theorem initializeFilters_of_failure (env : Env σ) (pre post : List FilterPtr)
    (f : FilterPtr) (w : σ) (hf : FirstInitFailure env pre f w) :
    (initializeFilters env (pre ++ f :: post) w).1 = false := by
  induction pre generalizing w with
  | nil =>
    have h1 : (env.initializeFilter f w).1 = false := by
      simpa [FirstInitFailure, initWorld] using hf.2
    simp [initializeFilters, h1]
  | cons g gs ih =>
    obtain ⟨hd, hlast⟩ := hf
    rw [allInitialize_cons] at hd
    have hrec := ih (env.initializeFilter g w).2 ⟨hd.2, by simpa [initWorld] using hlast⟩
    simpa [initializeFilters, hd.1] using hrec

theorem initializeFilters_of_success (env : Env σ) (fs : List FilterPtr) (w : σ)
    (hs : AllInitialize env fs w) :
    (initializeFilters env fs w).1 = true := by
  induction fs generalizing w with
  | nil => rfl
  | cons g gs ih =>
    rw [allInitialize_cons] at hs
    simpa [initializeFilters, hs.1] using ih _ hs.2

theorem initializeModule_of_success (env : Env σ) (d : ServiceModulePrivate) (w : σ)
    (hok : (initializeModule env d w).1 = true) :
    (initializeModule env d w).2.1 = d.filters.foldl (classify env) d := by
  unfold initializeModule at hok ⊢
  by_cases h : (initializeFilters env d.filters w).1 = true
  · simp [h]
  · simp [h] at hok

theorem chain_setChain (d : ServiceModulePrivate) (a b : Audience) (c : List FilterPtr) :
    (d.setChain a c).chain b = if a = b then c else d.chain b := by
  cases a <;> cases b <;> rfl

theorem chain_setIndex (d : ServiceModulePrivate) (a b : Audience)
    (m : QHash QByteArray FilterPtr) : (d.setIndex a m).chain b = d.chain b := by
  cases a <;> cases b <;> rfl

theorem index_setChain (d : ServiceModulePrivate) (a b : Audience) (c : List FilterPtr) :
    (d.setChain a c).index b = d.index b := by
  cases a <;> cases b <;> rfl

theorem index_setIndex (d : ServiceModulePrivate) (a b : Audience)
    (m : QHash QByteArray FilterPtr) :
    (d.setIndex a m).index b = if a = b then m else d.index b := by
  cases a <;> cases b <;> rfl

theorem chain_classifyFor (env : Env σ) (a b : Audience) (f : FilterPtr)
    (d : ServiceModulePrivate) :
    (classifyFor env a f d).chain b =
      if a = b ∧ isCatchAll env a f = true then d.chain b ++ [f] else d.chain b := by
  unfold classifyFor isCatchAll
  by_cases h1 : env.handles a f = true
  · by_cases h2 : (env.keywords f).isEmpty = true
    · by_cases h3 : a = b
      · subst h3
        simp [h1, h2, chain_setChain]
      · simp [h1, h2, h3, chain_setChain]
    · simp [h1, h2, chain_setIndex]
  · simp [h1]

theorem index_classifyFor (env : Env σ) (a b : Audience) (f : FilterPtr)
    (d : ServiceModulePrivate) :
    (classifyFor env a f d).index b =
      if a = b ∧ env.handles a f = true ∧ (env.keywords f).isEmpty = false then
        insertKeywords env f (env.keywords f) (d.index b)
      else d.index b := by
  unfold classifyFor
  by_cases h1 : env.handles a f = true
  · by_cases h2 : (env.keywords f).isEmpty = true
    · simp [h1, h2, index_setChain]
    · by_cases h3 : a = b
      · subst h3
        simp [h1, h2, index_setIndex]
      · simp [h1, h2, h3, index_setIndex]
  · simp [h1]

theorem chain_classify (env : Env σ) (b : Audience) (f : FilterPtr)
    (d : ServiceModulePrivate) :
    (classify env d f).chain b =
      if isCatchAll env b f = true then d.chain b ++ [f] else d.chain b := by
  unfold classify
  rw [chain_classifyFor, chain_classifyFor, chain_classifyFor]
  cases b <;> simp

theorem index_classify (env : Env σ) (b : Audience) (f : FilterPtr)
    (d : ServiceModulePrivate) :
    (classify env d f).index b =
      if env.handles b f = true ∧ (env.keywords f).isEmpty = false then
        insertKeywords env f (env.keywords f) (d.index b)
      else d.index b := by
  unfold classify
  rw [index_classifyFor, index_classifyFor, index_classifyFor]
  cases b <;> simp

theorem filters_foldl_installFilter (fs : List FilterPtr) (d : ServiceModulePrivate) :
    (fs.foldl ServiceModulePrivate.installFilter d).filters = d.filters ++ fs := by
  induction fs generalizing d with
  | nil => simp
  | cons f fs ih =>
    rw [List.foldl_cons, ih]
    simp [ServiceModulePrivate.installFilter]

theorem chain_foldl_installFilter (fs : List FilterPtr) (d : ServiceModulePrivate)
    (b : Audience) :
    (fs.foldl ServiceModulePrivate.installFilter d).chain b = d.chain b := by
  induction fs generalizing d with
  | nil => rfl
  | cons f fs ih =>
    rw [List.foldl_cons, ih]
    cases b <;> rfl

theorem chain_foldl_classify (env : Env σ) (b : Audience) (fs : List FilterPtr)
    (d : ServiceModulePrivate) :
    (fs.foldl (classify env) d).chain b =
      d.chain b ++ fs.filter (isCatchAll env b) := by
  induction fs generalizing d with
  | nil => simp
  | cons f fs ih =>
    rw [List.foldl_cons, ih, chain_classify, List.filter_cons]
    by_cases h : isCatchAll env b f = true
    · simp [h]
    · simp [h]

theorem value_insertKeywords (env : Env σ) (f : FilterPtr) (ks : List QString)
    (m : QHash QByteArray FilterPtr) (key : QByteArray) :
    QHash.value (insertKeywords env f ks m) key =
      if ks.any (fun k => decide (env.trGbk k = key)) = true then some f
      else QHash.value m key := by
  induction ks generalizing m with
  | nil => simp [insertKeywords]
  | cons k ks ih =>
    rw [insertKeywords, ih, QHash.value_insert]
    by_cases h1 : ks.any (fun k => decide (env.trGbk k = key)) = true
    · simp [h1]
    · by_cases h2 : env.trGbk k = key
      · simp [h1, h2]
      · simp [h1, h2]

theorem entries_insertKeywords (env : Env σ) (f : FilterPtr) (ks : List QString)
    (m : QHash QByteArray FilterPtr) (key : QByteArray) :
    QHash.entries (insertKeywords env f ks m) key =
      if ks.any (fun k => decide (env.trGbk k = key)) = true then 1
      else QHash.entries m key := by
  induction ks generalizing m with
  | nil => simp [insertKeywords]
  | cons k ks ih =>
    rw [insertKeywords, ih, QHash.entries_insert]
    by_cases h1 : ks.any (fun k => decide (env.trGbk k = key)) = true
    · simp [h1]
    · by_cases h2 : env.trGbk k = key
      · simp [h1, h2]
      · simp [h1, h2]

theorem any_false_of_isEmpty (env : Env σ) (f : FilterPtr) (key : QByteArray)
    (h : (env.keywords f).isEmpty = true) :
    (env.keywords f).any (fun k => decide (env.trGbk k = key)) = false := by
  rw [List.isEmpty_iff] at h
  rw [h]
  rfl

theorem value_index_classify (env : Env σ) (b : Audience) (f : FilterPtr)
    (d : ServiceModulePrivate) (key : QByteArray) :
    QHash.value ((classify env d f).index b) key =
      if declaresKey env b key f = true then some f
      else QHash.value (d.index b) key := by
  rw [index_classify]
  unfold declaresKey
  by_cases h1 : env.handles b f = true
  · by_cases h2 : (env.keywords f).isEmpty = true
    · simp [h1, h2, any_false_of_isEmpty env f key h2]
    · have h2' : (env.keywords f).isEmpty = false := by simpa using h2
      simp only [h1, h2', and_self, if_true, value_insertKeywords, Bool.true_and]
  · simp [h1]

theorem entries_index_classify (env : Env σ) (b : Audience) (f : FilterPtr)
    (d : ServiceModulePrivate) (key : QByteArray) :
    QHash.entries ((classify env d f).index b) key =
      if declaresKey env b key f = true then 1
      else QHash.entries (d.index b) key := by
  rw [index_classify]
  unfold declaresKey
  by_cases h1 : env.handles b f = true
  · by_cases h2 : (env.keywords f).isEmpty = true
    · simp [h1, h2, any_false_of_isEmpty env f key h2]
    · have h2' : (env.keywords f).isEmpty = false := by simpa using h2
      simp only [h1, h2', and_self, if_true, entries_insertKeywords, Bool.true_and]
  · simp [h1]

theorem index_foldl_classify_undeclared (env : Env σ) (b : Audience)
    (fs : List FilterPtr) (d : ServiceModulePrivate) (key : QByteArray)
    (hno : ∀ g, g ∈ fs → declaresKey env b key g = false) :
    QHash.value ((fs.foldl (classify env) d).index b) key = QHash.value (d.index b) key ∧
    QHash.entries ((fs.foldl (classify env) d).index b) key =
      QHash.entries (d.index b) key := by
  induction fs generalizing d with
  | nil => simp
  | cons f fs ih =>
    have hf := hno f (by simp)
    have hrec := ih (classify env d f) (fun g hg => hno g (by simp [hg]))
    rw [List.foldl_cons, hrec.1, hrec.2, value_index_classify, entries_index_classify]
    simp [hf]

/-- The keyword index after the classification loop: a key belongs to the last
filter that declares it. -/
theorem index_foldl_classify_last (env : Env σ) (b : Audience)
    (pre post : List FilterPtr) (f : FilterPtr) (d : ServiceModulePrivate)
    (key : QByteArray) (hf : declaresKey env b key f = true)
    (hno : ∀ g, g ∈ post → declaresKey env b key g = false) :
    QHash.value (((pre ++ f :: post).foldl (classify env) d).index b) key = some f ∧
    QHash.entries (((pre ++ f :: post).foldl (classify env) d).index b) key = 1 := by
  have hrec := index_foldl_classify_undeclared env b post
    (classify env (pre.foldl (classify env) d) f) key hno
  rw [List.foldl_append, List.foldl_cons, hrec.1, hrec.2, value_index_classify,
    entries_index_classify]
  simp [hf]

/-- Among the filters that declare a key there is a last one. -/
theorem exists_last_declaring (env : Env σ) (b : Audience) (key : QByteArray)
    (fs : List FilterPtr) (hex : ∃ g, g ∈ fs ∧ declaresKey env b key g = true) :
    ∃ pre f post, fs = pre ++ f :: post ∧ declaresKey env b key f = true ∧
      ∀ g, g ∈ post → declaresKey env b key g = false := by
  induction fs with
  | nil =>
    obtain ⟨g, hg, _⟩ := hex
    simp at hg
  | cons f fs ih =>
    by_cases hlater : ∃ g, g ∈ fs ∧ declaresKey env b key g = true
    · obtain ⟨pre, f', post, hfs, hf', hpost⟩ := ih hlater
      exact ⟨f :: pre, f', post, by simp [hfs], hf', hpost⟩
    · have hnone : ∀ g, g ∈ fs → declaresKey env b key g = false := by
        intro g hg
        by_contra hc
        exact hlater ⟨g, hg, by simpa using hc⟩
      obtain ⟨g, hg, hgd⟩ := hex
      rcases List.mem_cons.mp hg with rfl | hg'
      · exact ⟨[], g, fs, rfl, hgd, hnone⟩
      · rw [hnone g hg'] at hgd
        cases hgd

end InitializeLemmas

/-! ## Dispatch: lemmas -/

section DispatchLemmas

variable {σ : Type}

theorem handleMessage_eq (env : Env σ) (a : Audience) (d : ServiceModulePrivate)
    (ev : MessageEvent) (w : σ) :
    handleMessage env a d ev w =
      messageEvent (env.messageFilter a) (d.chain a) (d.index a) ev w := by
  cases a <;> rfl

theorem allDecline_cons (h : FilterPtr → Nat → MessageEvent → σ → Bool × σ)
    (ev : MessageEvent) (f : FilterPtr) (fs : List FilterPtr) (w : σ) :
    AllDecline h ev (f :: fs) w ↔
      (h f 0 ev w).1 = false ∧ AllDecline h ev fs (h f 0 ev w).2 := by
  constructor
  · intro hd
    refine ⟨by simpa [worldAfter] using hd 0 (by simp), ?_⟩
    intro j hj
    have := hd (j + 1) (by simpa using hj)
    simpa [worldAfter] using this
  · rintro ⟨h0, hrest⟩ j hj
    cases j with
    | zero => simpa [worldAfter] using h0
    | succ j =>
      have := hrest j (by simpa using hj)
      simpa [worldAfter] using this

theorem catchAllLoop_intercept (h : FilterPtr → Nat → MessageEvent → σ → Bool × σ)
    (ev : MessageEvent) (pre post : List FilterPtr) (f : FilterPtr) (w : σ)
    (hf : FirstInterceptor h ev pre f w) :
    (catchAllLoop h ev (pre ++ f :: post) w).result = true ∧
    (catchAllLoop h ev (pre ++ f :: post) w).world = (h f 0 ev (worldAfter h ev pre w)).2 ∧
    (catchAllLoop h ev (pre ++ f :: post) w).calls = catchAllCalls (pre ++ [f]) := by
  induction pre generalizing w with
  | nil =>
    have h1 : (h f 0 ev w).1 = true := by simpa [FirstInterceptor, worldAfter] using hf.2
    simp [catchAllLoop, h1, worldAfter, catchAllCalls]
  | cons g gs ih =>
    obtain ⟨hd, hlast⟩ := hf
    rw [allDecline_cons] at hd
    have hrec := ih (h g 0 ev w).2 ⟨hd.2, by simpa [worldAfter] using hlast⟩
    simp only [List.cons_append, catchAllLoop, hd.1, Bool.false_eq_true, if_false]
    refine ⟨hrec.1, ?_, ?_⟩
    · simpa [worldAfter] using hrec.2.1
    · simpa [catchAllCalls] using hrec.2.2

theorem catchAllLoop_decline (h : FilterPtr → Nat → MessageEvent → σ → Bool × σ)
    (ev : MessageEvent) (chain : List FilterPtr) (w : σ)
    (hd : AllDecline h ev chain w) :
    (catchAllLoop h ev chain w).result = false ∧
    (catchAllLoop h ev chain w).world = worldAfter h ev chain w ∧
    (catchAllLoop h ev chain w).calls = catchAllCalls chain := by
  induction chain generalizing w with
  | nil => simp [catchAllLoop, worldAfter, catchAllCalls]
  | cons g gs ih =>
    rw [allDecline_cons] at hd
    have hrec := ih (h g 0 ev w).2 hd.2
    simp only [catchAllLoop, hd.1, Bool.false_eq_true, if_false]
    refine ⟨hrec.1, ?_, ?_⟩
    · simpa [worldAfter] using hrec.2.1
    · simpa [catchAllCalls] using hrec.2.2

/-- The catch-all loop either finds a first interceptor or sees every filter
decline. -/
theorem catchAllLoop_cases (h : FilterPtr → Nat → MessageEvent → σ → Bool × σ)
    (ev : MessageEvent) (chain : List FilterPtr) (w : σ) :
    (∃ pre f post, chain = pre ++ f :: post ∧ FirstInterceptor h ev pre f w) ∨
      AllDecline h ev chain w := by
  induction chain generalizing w with
  | nil => right; intro j hj; simp at hj
  | cons g gs ih =>
    by_cases hg : (h g 0 ev w).1 = true
    · left
      exact ⟨[], g, gs, rfl, by intro j hj; simp at hj, by simpa [worldAfter] using hg⟩
    · have hg' : (h g 0 ev w).1 = false := by simpa using hg
      rcases ih (h g 0 ev w).2 with ⟨pre, f, post, hc, hd, hl⟩ | hd
      · left
        refine ⟨g :: pre, f, post, by simp [hc], ?_, by simpa [worldAfter] using hl⟩
        rw [allDecline_cons]
        exact ⟨hg', hd⟩
      · right
        rw [allDecline_cons]
        exact ⟨hg', hd⟩

theorem catchAllLoop_result_false_iff (h : FilterPtr → Nat → MessageEvent → σ → Bool × σ)
    (ev : MessageEvent) (chain : List FilterPtr) (w : σ) :
    (catchAllLoop h ev chain w).result = false ↔ AllDecline h ev chain w := by
  constructor
  · intro hr
    rcases catchAllLoop_cases h ev chain w with ⟨pre, f, post, hc, hf⟩ | hd
    · have := (catchAllLoop_intercept h ev pre post f w hf).1
      rw [← hc, hr] at this
      cases this
    · exact hd
  · intro hd
    exact (catchAllLoop_decline h ev chain w hd).1

theorem missedLookups_succ (ev : MessageEvent) (i n : Nat) :
    missedLookups ev i (n + 1) =
      if isSeparator ev i then
        Call.lookup (ev.gbkMsg.take i) :: missedLookups ev (i + 1) n
      else missedLookups ev (i + 1) n := by
  unfold missedLookups
  rw [List.range'_succ, List.filter_cons]
  split <;> simp

theorem missedLookups_no_handler (ev : MessageEvent) (i n : Nat) :
    (missedLookups ev i n).filter Call.isHandler = [] := by
  unfold missedLookups
  rw [List.filter_eq_nil_iff]
  intro c hc
  rw [List.mem_map] at hc
  obtain ⟨q, _, rfl⟩ := hc
  simp [Call.isHandler]

theorem missedLookups_of_no_separator (ev : MessageEvent) (i n : Nat)
    (hno : ∀ q, i ≤ q → q < i + n → isSeparator ev q = false) :
    missedLookups ev i n = [] := by
  unfold missedLookups
  rw [List.map_eq_nil_iff, List.filter_eq_nil_iff]
  intro q hq
  rw [List.mem_range'_1] at hq
  simp [hno q hq.1 hq.2]

/-- The keyword loop when no separator position in its range has a prefix
stored in the index. -/
theorem keywordLoop_miss (h : FilterPtr → Nat → MessageEvent → σ → Bool × σ)
    (idx : QHash QByteArray FilterPtr) (ev : MessageEvent) (n i : Nat) (w : σ)
    (hmiss : ∀ q, i ≤ q → q < i + n → isSeparator ev q = true →
      QHash.value idx (ev.gbkMsg.take q) = none) :
    (keywordLoop h idx ev n i w).result = false ∧
    (keywordLoop h idx ev n i w).world = w ∧
    (keywordLoop h idx ev n i w).calls = missedLookups ev i n := by
  induction n generalizing i with
  | zero => simp [keywordLoop, missedLookups]
  | succ n ih =>
    have hrec := ih (i + 1) (fun q h1 h2 h3 => hmiss q (by omega) (by omega) h3)
    rw [missedLookups_succ]
    by_cases hs : isSeparator ev i = true
    · have hv := hmiss i (le_refl _) (by omega) hs
      simp only [keywordLoop, hs, if_true, hv]
      exact ⟨hrec.1, hrec.2.1, by rw [hrec.2.2]⟩
    · simp only [keywordLoop, hs, Bool.false_eq_true, if_false]
      exact hrec

/-- The keyword loop when position `p` is the first separator position in its
range whose prefix is stored in the index. -/
theorem keywordLoop_hit (h : FilterPtr → Nat → MessageEvent → σ → Bool × σ)
    (idx : QHash QByteArray FilterPtr) (ev : MessageEvent) (n i p : Nat) (w : σ)
    (f : FilterPtr) (hip : i ≤ p) (hpn : p < i + n)
    (hsep : isSeparator ev p = true)
    (hval : QHash.value idx (ev.gbkMsg.take p) = some f)
    (hmiss : ∀ q, i ≤ q → q < p → isSeparator ev q = true →
      QHash.value idx (ev.gbkMsg.take q) = none) :
    (keywordLoop h idx ev n i w).result = (h f p ev w).1 ∧
    (keywordLoop h idx ev n i w).world = (h f p ev w).2 ∧
    (keywordLoop h idx ev n i w).calls =
      missedLookups ev i (p - i) ++
        [Call.lookup (ev.gbkMsg.take p), Call.handler f p] := by
  induction n generalizing i with
  | zero => omega
  | succ n ih =>
    rcases Nat.eq_or_lt_of_le hip with heq | hlt
    · subst heq
      simp [keywordLoop, hsep, hval, missedLookups]
    · have hrec := ih (i + 1) (by omega) (by omega)
        (fun q h1 h2 h3 => hmiss q (by omega) h2 h3)
      have hpi : p - i = (p - (i + 1)) + 1 := by omega
      rw [hpi, missedLookups_succ]
      by_cases hs : isSeparator ev i = true
      · have hv := hmiss i (le_refl _) hlt hs
        simp only [keywordLoop, hs, if_true, hv]
        exact ⟨hrec.1, hrec.2.1, by rw [hrec.2.2]; rfl⟩
      · simp only [keywordLoop, hs, Bool.false_eq_true, if_false]
        exact hrec

theorem catchAllLoop_calls_mem (h : FilterPtr → Nat → MessageEvent → σ → Bool × σ)
    (ev : MessageEvent) (chain : List FilterPtr) (w : σ) (c : Call)
    (hc : c ∈ (catchAllLoop h ev chain w).calls) :
    ∃ f, f ∈ chain ∧ c = Call.handler f 0 := by
  induction chain generalizing w with
  | nil => simp [catchAllLoop] at hc
  | cons g gs ih =>
    by_cases hg : (h g 0 ev w).1 = true
    · simp only [catchAllLoop, hg, if_true, List.mem_singleton] at hc
      exact ⟨g, by simp, hc⟩
    · simp only [catchAllLoop, hg, Bool.false_eq_true, if_false, List.mem_cons] at hc
      rcases hc with hc | hc
      · exact ⟨g, by simp, hc⟩
      · obtain ⟨f, hf, hcf⟩ := ih _ hc
        exact ⟨f, by simp [hf], hcf⟩

theorem catchAllCalls_filter_isHandler (chain : List FilterPtr) :
    (catchAllCalls chain).filter Call.isHandler = catchAllCalls chain := by
  unfold catchAllCalls
  rw [List.filter_eq_self]
  intro c hc
  rw [List.mem_map] at hc
  obtain ⟨f, _, rfl⟩ := hc
  rfl

end DispatchLemmas

/-! ## Dispatch: the claims -/

section DispatchClaims

variable {σ : Type}

/-- C1: when the catch-all chain of an audience is `pre ++ Fk :: post` and `Fk`
is the first filter whose handler returns true, the message-event handler
returns true and the calls it makes are exactly the handlers of `pre` and then
`Fk`, once each, in chain order, with hint 0: no filter of `post` is called, no
keyword filter is called and the keyword index is not consulted. -/
theorem C1_first_interceptor_short_circuits (env : Env σ) (a : Audience)
    (d : ServiceModulePrivate) (ev : MessageEvent) (w : σ)
    (pre post : List FilterPtr) (Fk : FilterPtr)
    (hchain : d.chain a = pre ++ Fk :: post)
    (hfirst : FirstInterceptor (env.messageFilter a) ev pre Fk w) :
    (handleMessage env a d ev w).result = true ∧
    (handleMessage env a d ev w).calls =
      (pre ++ [Fk]).map (fun f => Call.handler f 0) ∧
    (handleMessage env a d ev w).world =
      (env.messageFilter a Fk 0 ev (worldAfter (env.messageFilter a) ev pre w)).2 := by
  have hc := catchAllLoop_intercept (env.messageFilter a) ev pre post Fk w hfirst
  rw [handleMessage_eq, hchain]
  simp only [messageEvent, hc.1, if_true]
  exact ⟨trivial, hc.2.2, hc.2.1⟩

/-- C1, at a sample input: chain `[1, 2, 3]` for group messages, filter 2
intercepts. -/
theorem C1_first_interceptor_short_circuits_witness :
    (handleMessage sampleEnv .Group
        { emptyModule with groupFilters := [1, 2, 3],
                           groupKeywordFilters := [([112, 105, 110, 103], 7)] }
        pingEvent 0).result = true ∧
    (handleMessage sampleEnv .Group
        { emptyModule with groupFilters := [1, 2, 3],
                           groupKeywordFilters := [([112, 105, 110, 103], 7)] }
        pingEvent 0).calls = [Call.handler 1 0, Call.handler 2 0] ∧
    (handleMessage sampleEnv .Group
        { emptyModule with groupFilters := [1, 2, 3],
                           groupKeywordFilters := [([112, 105, 110, 103], 7)] }
        pingEvent 0).world = 2 :=
  C1_first_interceptor_short_circuits sampleEnv .Group
    { emptyModule with groupFilters := [1, 2, 3],
                       groupKeywordFilters := [([112, 105, 110, 103], 7)] }
    pingEvent 0 [1] [3] 2 rfl
    ⟨by intro j hj
        have hj0 : j = 0 := by simpa using hj
        subst hj0
        rfl,
     rfl⟩

/-- C2: when the catch-all chain of an audience is empty, the first
null-or-space byte of the buffer is at position `n < 33`, and the bytes before
it are a key of the keyword index stored with filter `F`, the message-event
handler looks that key up, calls the handler of `F` once with hint `n`, calls
nothing else, and returns what `F` returned. -/
theorem C2_keyword_filter_gets_token_length (env : Env σ) (a : Audience)
    (d : ServiceModulePrivate) (ev : MessageEvent) (w : σ) (n : Nat) (F : FilterPtr)
    (hn : n < 33)
    (hsep : isSeparator ev n = true)
    (hfirst : ∀ i, i < n → isSeparator ev i = false)
    (hchain : d.chain a = [])
    (hkey : QHash.value (d.index a) (ev.gbkMsg.take n) = some F) :
    (handleMessage env a d ev w).result = (env.messageFilter a F n ev w).1 ∧
    (handleMessage env a d ev w).calls =
      [Call.lookup (ev.gbkMsg.take n), Call.handler F n] ∧
    (handleMessage env a d ev w).world = (env.messageFilter a F n ev w).2 := by
  have hk := keywordLoop_hit (env.messageFilter a) (d.index a) ev 33 0 n w F
    (Nat.zero_le _) (by omega) hsep hkey
    (fun q _ h2 h3 => by rw [hfirst q h2] at h3; cases h3)
  have hl : missedLookups ev 0 (n - 0) = [] :=
    missedLookups_of_no_separator ev 0 (n - 0) (fun q _ h2 => hfirst q (by omega))
  rw [hl] at hk
  rw [handleMessage_eq, hchain]
  simp only [messageEvent, catchAllLoop, Bool.false_eq_true, if_false, List.nil_append]
  exact ⟨hk.1, hk.2.2, hk.2.1⟩

/-- C2, at the buffer `ping 123`, with the keyword `ping` stored with filter 7:
the hint is 4. -/
theorem C2_keyword_filter_gets_token_length_witness :
    (handleMessage sampleEnv .Private
        { emptyModule with privateKeywordFilters := [([112, 105, 110, 103], 7)] }
        pingEvent 0).result = true ∧
    (handleMessage sampleEnv .Private
        { emptyModule with privateKeywordFilters := [([112, 105, 110, 103], 7)] }
        pingEvent 0).calls = [Call.lookup [112, 105, 110, 103], Call.handler 7 4] ∧
    (handleMessage sampleEnv .Private
        { emptyModule with privateKeywordFilters := [([112, 105, 110, 103], 7)] }
        pingEvent 0).world = 1 :=
  C2_keyword_filter_gets_token_length sampleEnv .Private
    { emptyModule with privateKeywordFilters := [([112, 105, 110, 103], 7)] }
    pingEvent 0 4 7 (by decide) (by decide) (by decide) rfl (by decide)

/-- C3 as stated fails.  Buffer `a b` followed by nulls, empty catch-all chain,
the keyword index holds only the key `a b` (filter 7): the first null-or-space
byte is at position 1, the candidate token `a` is not a key, and yet the handler
goes on to position 3, finds `a b`, calls filter 7 with hint 3 and returns
true. -/
theorem C3_counterexample :
    AllDecline (sampleEnv.messageFilter .Private) spacedEvent
      (ServiceModulePrivate.chain
        { emptyModule with privateKeywordFilters := [([97, 32, 98], 7)] } .Private) 0 ∧
    isSeparator spacedEvent 0 = false ∧
    isSeparator spacedEvent 1 = true ∧
    QHash.value
      (ServiceModulePrivate.index
        { emptyModule with privateKeywordFilters := [([97, 32, 98], 7)] } .Private)
      (spacedEvent.gbkMsg.take 1) = none ∧
    (handleMessage sampleEnv .Private
        { emptyModule with privateKeywordFilters := [([97, 32, 98], 7)] }
        spacedEvent 0).result = true ∧
    (handleMessage sampleEnv .Private
        { emptyModule with privateKeywordFilters := [([97, 32, 98], 7)] }
        spacedEvent 0).calls =
      [Call.lookup [97], Call.lookup [97, 32, 98], Call.handler 7 3] := by
  refine ⟨?_, by decide, by decide, by decide, by decide, by decide⟩
  intro j hj
  simp [ServiceModulePrivate.chain, emptyModule] at hj

/-- C3, amended: when no catch-all filter intercepts and at no null-or-space
position `p < 33` the bytes before `p` are a key of the keyword index, the
message-event handler returns false; the filter handlers it calls are exactly
the catch-all ones, and it makes one lookup at each null-or-space position, in
increasing order. -/
theorem C3_miss_at_every_separator (env : Env σ) (a : Audience)
    (d : ServiceModulePrivate) (ev : MessageEvent) (w : σ)
    (hdecline : AllDecline (env.messageFilter a) ev (d.chain a) w)
    (hmiss : ∀ p, p < 33 → isSeparator ev p = true →
      QHash.value (d.index a) (ev.gbkMsg.take p) = none) :
    (handleMessage env a d ev w).result = false ∧
    (handleMessage env a d ev w).calls.filter Call.isHandler =
      (d.chain a).map (fun f => Call.handler f 0) ∧
    (handleMessage env a d ev w).calls =
      (d.chain a).map (fun f => Call.handler f 0) ++ missedLookups ev 0 33 := by
  have hc := catchAllLoop_decline (env.messageFilter a) ev (d.chain a) w hdecline
  have hk := keywordLoop_miss (env.messageFilter a) (d.index a) ev 33 0
    (catchAllLoop (env.messageFilter a) ev (d.chain a) w).world
    (fun q _ h2 h3 => hmiss q (by omega) h3)
  rw [handleMessage_eq]
  simp only [messageEvent, hc.1, Bool.false_eq_true, if_false]
  refine ⟨hk.1, ?_, ?_⟩
  · rw [hc.2.2, hk.2.2, List.filter_append, missedLookups_no_handler,
      catchAllCalls_filter_isHandler, List.append_nil]
    rfl
  · rw [hc.2.2, hk.2.2]
    rfl

/-- C3 amended, at the buffer `ping 123` with only the key `a b` stored and the
declining filter 1 in the chain. -/
theorem C3_miss_at_every_separator_witness :
    (handleMessage sampleEnv .Discuss
        { emptyModule with discussFilters := [1],
                           discussKeywordFilters := [([97, 32, 98], 7)] }
        pingEvent 0).result = false ∧
    (handleMessage sampleEnv .Discuss
        { emptyModule with discussFilters := [1],
                           discussKeywordFilters := [([97, 32, 98], 7)] }
        pingEvent 0).calls.filter Call.isHandler = [Call.handler 1 0] ∧
    (handleMessage sampleEnv .Discuss
        { emptyModule with discussFilters := [1],
                           discussKeywordFilters := [([97, 32, 98], 7)] }
        pingEvent 0).calls =
      [Call.handler 1 0] ++ missedLookups pingEvent 0 33 :=
  C3_miss_at_every_separator sampleEnv .Discuss
    { emptyModule with discussFilters := [1],
                       discussKeywordFilters := [([97, 32, 98], 7)] }
    pingEvent 0
    (by intro j hj
        have hj0 : j = 0 := by simpa [ServiceModulePrivate.chain, emptyModule] using hj
        subst hj0
        rfl)
    (by decide)

/-- C4: when none of the 33 buffer bytes is a null or a space, the
message-event handler is the catch-all loop and nothing more: every call it
makes is the handler of a filter of the catch-all chain with hint 0 (so there
is no lookup in the keyword index and no keyword filter is called), and it
returns true exactly when some filter of the chain is the first to
intercept. -/
theorem C4_no_separator_no_keyword_matching (env : Env σ) (a : Audience)
    (d : ServiceModulePrivate) (ev : MessageEvent) (w : σ)
    (hno : ∀ i, i < 33 → isSeparator ev i = false) :
    (handleMessage env a d ev w).calls =
      (catchAllLoop (env.messageFilter a) ev (d.chain a) w).calls ∧
    (∀ key, Call.lookup key ∉ (handleMessage env a d ev w).calls) ∧
    (∀ c, c ∈ (handleMessage env a d ev w).calls →
      ∃ f, f ∈ d.chain a ∧ c = Call.handler f 0) ∧
    ((handleMessage env a d ev w).result = true ↔
      ∃ pre Fk post, d.chain a = pre ++ Fk :: post ∧
        FirstInterceptor (env.messageFilter a) ev pre Fk w) := by
  have hk := keywordLoop_miss (env.messageFilter a) (d.index a) ev 33 0
    (catchAllLoop (env.messageFilter a) ev (d.chain a) w).world
    (fun q _ h2 h3 => by rw [hno q (by omega)] at h3; cases h3)
  have hl : missedLookups ev 0 33 = [] :=
    missedLookups_of_no_separator ev 0 33 (fun q _ h2 => hno q (by omega))
  rw [hl] at hk
  have hcalls : (handleMessage env a d ev w).calls =
      (catchAllLoop (env.messageFilter a) ev (d.chain a) w).calls := by
    rw [handleMessage_eq]
    by_cases hr : (catchAllLoop (env.messageFilter a) ev (d.chain a) w).result = true
    · simp only [messageEvent, hr, if_true]
    · have hr0 : (catchAllLoop (env.messageFilter a) ev (d.chain a) w).result = false := by
        simpa using hr
      simp only [messageEvent, hr0, Bool.false_eq_true, if_false, hk.2.2, List.append_nil]
  have hres : (handleMessage env a d ev w).result =
      (catchAllLoop (env.messageFilter a) ev (d.chain a) w).result := by
    rw [handleMessage_eq]
    by_cases hr : (catchAllLoop (env.messageFilter a) ev (d.chain a) w).result = true
    · simp only [messageEvent, hr, if_true]
    · have hr0 : (catchAllLoop (env.messageFilter a) ev (d.chain a) w).result = false := by
        simpa using hr
      simp only [messageEvent, hr0, Bool.false_eq_true, if_false, hk.1]
  have hmem : ∀ c, c ∈ (handleMessage env a d ev w).calls →
      ∃ f, f ∈ d.chain a ∧ c = Call.handler f 0 := by
    intro c hc
    rw [hcalls] at hc
    exact catchAllLoop_calls_mem _ ev _ w c hc
  refine ⟨hcalls, ?_, hmem, ?_⟩
  · intro key hkey
    obtain ⟨f, _, hf⟩ := hmem _ hkey
    cases hf
  · rw [hres]
    constructor
    · intro hr
      rcases catchAllLoop_cases (env.messageFilter a) ev (d.chain a) w with hx | hd
      · exact hx
      · rw [(catchAllLoop_decline _ ev _ w hd).1] at hr
        cases hr
    · rintro ⟨pre, Fk, post, hc, hf⟩
      rw [hc]
      exact (catchAllLoop_intercept _ ev pre post Fk w hf).1

/-- C4, at a buffer of 33 bytes `x`, with the declining filter 1 in the chain
and the whole buffer stored as a key. -/
theorem C4_no_separator_no_keyword_matching_witness :
    (handleMessage sampleEnv .Private
        { emptyModule with privateFilters := [1],
                           privateKeywordFilters := [(fullEvent.gbkMsg, 7)] }
        fullEvent 0).calls = [Call.handler 1 0] ∧
    (handleMessage sampleEnv .Private
        { emptyModule with privateFilters := [1],
                           privateKeywordFilters := [(fullEvent.gbkMsg, 7)] }
        fullEvent 0).result = false := by
  have h := C4_no_separator_no_keyword_matching sampleEnv .Private
    { emptyModule with privateFilters := [1],
                       privateKeywordFilters := [(fullEvent.gbkMsg, 7)] }
    fullEvent 0 (by decide)
  exact ⟨h.1.trans rfl, by decide⟩

end DispatchClaims

/-! ## `ServiceModule::initialize`: the claims -/

section InitializeClaims

variable {σ : Type}

/-- C5: when some registered filter is the first whose own initialisation
reports failure, `ServiceModule::initialize` returns false and the containers
(the three catch-all chains, the three keyword indices, and the registration
list) are exactly what they were; when every registered filter initialises
successfully, it returns true. -/
theorem C5_initialize_fail_fast (env : Env σ) (d : ServiceModulePrivate) (w : σ) :
    (∀ pre f post, d.filters = pre ++ f :: post → FirstInitFailure env pre f w →
      (initializeModule env d w).1 = false ∧ (initializeModule env d w).2.1 = d) ∧
    (AllInitialize env d.filters w → (initializeModule env d w).1 = true) := by
  constructor
  · intro pre f post hreg hfail
    have h := initializeFilters_of_failure env pre post f w hfail
    rw [← hreg] at h
    simp [initializeModule, h]
  · intro hall
    have h := initializeFilters_of_success env d.filters w hall
    simp [initializeModule, h]

/-- C5, at sample inputs: with filters `[1, 13, 7]` registered, filter 13 fails,
the result is false and the containers are untouched; with `[1, 7]` the result
is true. -/
theorem C5_initialize_fail_fast_witness :
    ((initializeModule sampleEnv { emptyModule with filters := [1, 13, 7] } 0).1 = false ∧
      (initializeModule sampleEnv { emptyModule with filters := [1, 13, 7] } 0).2.1 =
        { emptyModule with filters := [1, 13, 7] }) ∧
    (initializeModule sampleEnv { emptyModule with filters := [1, 7] } 0).1 = true :=
  ⟨(C5_initialize_fail_fast sampleEnv { emptyModule with filters := [1, 13, 7] } 0).1
      [1] 13 [7] rfl
      ⟨by intro j hj
          have hj0 : j = 0 := by simpa using hj
          subst hj0
          rfl,
       rfl⟩,
   (C5_initialize_fail_fast sampleEnv { emptyModule with filters := [1, 7] } 0).2
      (by intro j hj
          have hj2 : j = 0 ∨ j = 1 := by
            have : j < 2 := by simpa [emptyModule] using hj
            omega
          rcases hj2 with rfl | rfl <;> rfl)⟩

/-- C6 as stated fails.  `installFilter` is called twice with filter 5, which
handles private messages and declares no keyword; the chains are empty and
initialisation succeeds, and filter 5 then stands twice in the private
catch-all chain, not once. -/
theorem C6_counterexample :
    ((emptyModule.installFilter 5).installFilter 5).filters = [5, 5] ∧
    ((emptyModule.installFilter 5).installFilter 5).privateFilters = [] ∧
    ((emptyModule.installFilter 5).installFilter 5).groupFilters = [] ∧
    ((emptyModule.installFilter 5).installFilter 5).discussFilters = [] ∧
    (initializeModule sampleEnv ((emptyModule.installFilter 5).installFilter 5) 0).1 = true ∧
    sampleEnv.handles .Private 5 = true ∧
    sampleEnv.keywords 5 = [] ∧
    ((initializeModule sampleEnv ((emptyModule.installFilter 5).installFilter 5) 0).2.1).chain
        .Private = [5, 5] ∧
    (((initializeModule sampleEnv ((emptyModule.installFilter 5).installFilter 5) 0).2.1).chain
        .Private).count 5 = 2 := by
  refine ⟨by decide, by decide, by decide, by decide, by decide, by decide, by decide,
    by decide, by decide⟩

/-- C6, amended: let the filters `fs` be registered with `installFilter`, in
this order, on a state `d0` whose catch-all chains are empty.  After a
successful `ServiceModule::initialize` the catch-all chain of every audience
`a` is the registration list restricted to the filters that handle `a` and
declare no keyword, in registration order; a filter of that kind stands in the
chain once for each time it was registered, so exactly once when it was
registered once. -/
theorem C6_catch_all_chain_in_registration_order (env : Env σ)
    (d0 : ServiceModulePrivate) (fs : List FilterPtr) (w : σ) (a : Audience)
    (hempty : ∀ b, d0.chain b = [])
    (hok : (initializeModule env
      (fs.foldl ServiceModulePrivate.installFilter d0) w).1 = true) :
    (fs.foldl ServiceModulePrivate.installFilter d0).filters = d0.filters ++ fs ∧
    ((initializeModule env (fs.foldl ServiceModulePrivate.installFilter d0) w).2.1).chain a =
      (d0.filters ++ fs).filter (fun f => env.handles a f && (env.keywords f).isEmpty) ∧
    (∀ F, env.handles a F = true → env.keywords F = [] →
      (((initializeModule env
          (fs.foldl ServiceModulePrivate.installFilter d0) w).2.1).chain a).count F =
        (d0.filters ++ fs).count F) ∧
    (∀ F, (d0.filters ++ fs).count F = 1 → env.handles a F = true → env.keywords F = [] →
      (((initializeModule env
          (fs.foldl ServiceModulePrivate.installFilter d0) w).2.1).chain a).count F = 1) := by
  have hreg := filters_foldl_installFilter fs d0
  have hchain : ((initializeModule env
      (fs.foldl ServiceModulePrivate.installFilter d0) w).2.1).chain a =
      (d0.filters ++ fs).filter (isCatchAll env a) := by
    rw [initializeModule_of_success env _ w hok, chain_foldl_classify,
      chain_foldl_installFilter, hempty a, List.nil_append, hreg]
  have hcount : ∀ F, env.handles a F = true → env.keywords F = [] →
      (((initializeModule env
          (fs.foldl ServiceModulePrivate.installFilter d0) w).2.1).chain a).count F =
        (d0.filters ++ fs).count F := by
    intro F hA hK
    have hF : isCatchAll env a F = true := by simp [isCatchAll, hA, hK]
    rw [hchain, List.count_filter hF]
  refine ⟨hreg, hchain, hcount, ?_⟩
  intro F hone hA hK
  rw [hcount F hA hK, hone]

/-- C6 amended, at a sample input: filters 1, 7, 2 are installed in this order
on the empty state, filter 7 declares a keyword; the private chain is `[1, 2]`
and filter 2 stands in it once. -/
theorem C6_catch_all_chain_in_registration_order_witness :
    ((initializeModule sampleEnv
        ([1, 7, 2].foldl ServiceModulePrivate.installFilter emptyModule) 0).2.1).chain
        .Private = [1, 2] ∧
    (((initializeModule sampleEnv
        ([1, 7, 2].foldl ServiceModulePrivate.installFilter emptyModule) 0).2.1).chain
        .Private).count 2 = 1 :=
  ⟨(C6_catch_all_chain_in_registration_order sampleEnv emptyModule [1, 7, 2] 0 .Private
      (by intro b; cases b <;> rfl) (by decide)).2.1.trans (by decide),
   (C6_catch_all_chain_in_registration_order sampleEnv emptyModule [1, 7, 2] 0 .Private
      (by intro b; cases b <;> rfl) (by decide)).2.2.2 2 (by decide) (by decide)
      (by decide)⟩

/-- C7 as stated fails.  Filters 7 and 8 are registered in this order, both
handle private messages and both declare the keyword `ping`; initialisation
succeeds on empty containers, and the private keyword index maps the encoded
`ping` to filter 8, not to filter 7. -/
theorem C7_counterexample :
    (initializeModule sampleEnv { emptyModule with filters := [7, 8] } 0).1 = true ∧
    sampleEnv.handles .Private 7 = true ∧
    [112, 105, 110, 103] ∈ sampleEnv.keywords 7 ∧
    QHash.value
      (((initializeModule sampleEnv { emptyModule with filters := [7, 8] } 0).2.1).index
        .Private)
      (sampleEnv.trGbk [112, 105, 110, 103]) = some 8 := by
  refine ⟨by decide, by decide, by decide, by decide⟩

/-- C7, amended: after a successful `ServiceModule::initialize` that started
with empty catch-all chains, a registered filter `F` that handles audience `a`
and declares keywords is not in the catch-all chain of `a`; for each of its
keywords `k` the keyword index of `a` maps the encoded `k` to the last
registered filter that handles `a` and declares a keyword with that encoding,
which is `F` itself when no such filter is registered after `F`. -/
theorem C7_keyword_filters_indexed (env : Env σ) (d : ServiceModulePrivate) (w : σ)
    (a : Audience) (pre post : List FilterPtr) (F : FilterPtr)
    (hempty : ∀ b, d.chain b = [])
    (hok : (initializeModule env d w).1 = true)
    (hreg : d.filters = pre ++ F :: post)
    (hA : env.handles a F = true)
    (hK : env.keywords F ≠ []) :
    F ∉ ((initializeModule env d w).2.1).chain a ∧
    ∀ k, k ∈ env.keywords F →
      (∃ pre1 G post1, d.filters = pre1 ++ G :: post1 ∧
        declaresKey env a (env.trGbk k) G = true ∧
        (∀ g, g ∈ post1 → declaresKey env a (env.trGbk k) g = false) ∧
        QHash.value (((initializeModule env d w).2.1).index a) (env.trGbk k) = some G) ∧
      ((∀ g, g ∈ post → declaresKey env a (env.trGbk k) g = false) →
        QHash.value (((initializeModule env d w).2.1).index a) (env.trGbk k) = some F) := by
  have hd := initializeModule_of_success env d w hok
  constructor
  · rw [hd, chain_foldl_classify, hempty a, List.nil_append]
    intro hmem
    have := (List.mem_filter.mp hmem).2
    simp only [isCatchAll, Bool.and_eq_true, List.isEmpty_iff] at this
    exact hK this.2
  · intro k hk
    have hF : declaresKey env a (env.trGbk k) F = true := by
      simp only [declaresKey, hA, Bool.true_and, List.any_eq_true, decide_eq_true_eq]
      exact ⟨k, hk, rfl⟩
    constructor
    · obtain ⟨pre1, G, post1, hfs, hG, hpost1⟩ :=
        exists_last_declaring env a (env.trGbk k) d.filters
          ⟨F, by simp [hreg], hF⟩
      refine ⟨pre1, G, post1, hfs, hG, hpost1, ?_⟩
      rw [hd, hfs]
      exact (index_foldl_classify_last env a pre1 post1 G d _ hG hpost1).1
    · intro hpost
      rw [hd, hreg]
      exact (index_foldl_classify_last env a pre post F d _ hF hpost).1

/-- C7 amended, at a sample input: filters `[1, 7, 8]` registered, filter 8
declares `ping` and `a b` and is registered last. -/
theorem C7_keyword_filters_indexed_witness :
    8 ∉ ((initializeModule sampleEnv { emptyModule with filters := [1, 7, 8] } 0).2.1).chain
        .Group ∧
    QHash.value
      (((initializeModule sampleEnv { emptyModule with filters := [1, 7, 8] } 0).2.1).index
        .Group) (sampleEnv.trGbk [97, 32, 98]) = some 8 :=
  ⟨(C7_keyword_filters_indexed sampleEnv { emptyModule with filters := [1, 7, 8] } 0
      .Group [1, 7] [] 8 (by intro b; cases b <;> rfl) (by decide) rfl (by decide)
      (by decide)).1,
   ((C7_keyword_filters_indexed sampleEnv { emptyModule with filters := [1, 7, 8] } 0
      .Group [1, 7] [] 8 (by intro b; cases b <;> rfl) (by decide) rfl (by decide)
      (by decide)).2 [97, 32, 98] (by decide)).2 (by intro g hg; simp at hg)⟩

/-- C8: when filters `F1` and `F2` both handle audience `a` and both declare
keyword `k`, `F1` is registered before `F2`, and no filter registered after
`F2` that handles `a` declares a keyword with the encoding of `k`, then after a
successful `ServiceModule::initialize` the keyword index of `a` holds exactly
one entry under the encoded `k`, and that entry is `F2`. -/
theorem C8_later_registration_overwrites (env : Env σ) (d : ServiceModulePrivate)
    (w : σ) (a : Audience) (pre post : List FilterPtr) (F1 F2 : FilterPtr) (k : QString)
    (hok : (initializeModule env d w).1 = true)
    (hreg : d.filters = pre ++ F2 :: post)
    (hbefore : F1 ∈ pre)
    (hA1 : env.handles a F1 = true) (hA2 : env.handles a F2 = true)
    (hk1 : k ∈ env.keywords F1) (hk2 : k ∈ env.keywords F2)
    (hlast : ∀ g, g ∈ post → env.handles a g = true →
      ∀ k', k' ∈ env.keywords g → env.trGbk k' ≠ env.trGbk k) :
    QHash.entries (((initializeModule env d w).2.1).index a) (env.trGbk k) = 1 ∧
    QHash.value (((initializeModule env d w).2.1).index a) (env.trGbk k) = some F2 ∧
    (F1 ≠ F2 →
      QHash.value (((initializeModule env d w).2.1).index a) (env.trGbk k) ≠ some F1) := by
  have hd := initializeModule_of_success env d w hok
  have hF1 : declaresKey env a (env.trGbk k) F1 = true := by
    simp only [declaresKey, hA1, Bool.true_and, List.any_eq_true, decide_eq_true_eq]
    exact ⟨k, hk1, rfl⟩
  have hF2 : declaresKey env a (env.trGbk k) F2 = true := by
    simp only [declaresKey, hA2, Bool.true_and, List.any_eq_true, decide_eq_true_eq]
    exact ⟨k, hk2, rfl⟩
  have hpost : ∀ g, g ∈ post → declaresKey env a (env.trGbk k) g = false := by
    intro g hg
    by_cases hAg : env.handles a g = true
    · simp only [declaresKey, hAg, Bool.true_and]
      rw [Bool.eq_false_iff]
      intro hany
      rw [List.any_eq_true] at hany
      obtain ⟨k', hk', heq⟩ := hany
      exact hlast g hg hAg k' hk' (by simpa using heq)
    · simp [declaresKey, hAg]
  have hmain := index_foldl_classify_last env a pre post F2 d _ hF2 hpost
  have hmem : F1 ∈ d.filters ∧ declaresKey env a (env.trGbk k) F1 = true :=
    ⟨by simp [hreg, hbefore], hF1⟩
  rw [hd, hreg]
  refine ⟨hmain.2, hmain.1, ?_⟩
  intro hne hval
  rw [hmain.1] at hval
  exact hne (Option.some.inj hval).symm

/-- C8, at a sample input: filter 7 and then filter 8 are registered, both
declare `ping` for private messages. -/
theorem C8_later_registration_overwrites_witness :
    QHash.entries
      (((initializeModule sampleEnv { emptyModule with filters := [7, 8] } 0).2.1).index
        .Private) (sampleEnv.trGbk [112, 105, 110, 103]) = 1 ∧
    QHash.value
      (((initializeModule sampleEnv { emptyModule with filters := [7, 8] } 0).2.1).index
        .Private) (sampleEnv.trGbk [112, 105, 110, 103]) = some 8 :=
  have h := C8_later_registration_overwrites sampleEnv
    { emptyModule with filters := [7, 8] } 0 .Private [7] [] 7 8 [112, 105, 110, 103]
    (by decide) rfl (by decide) (by decide) (by decide) (by decide) (by decide)
    (by intro g hg; simp at hg)
  ⟨h.1, h.2.1⟩

end InitializeClaims

/-! ## `ServiceModulePrivate::result`: the claim -/

/-- C9: `ServiceModulePrivate::result(r)` is `NoError` exactly when `r = 0` and
`Unknown` for every other status code, `1` and the negative ones included; it
has no other outcome. -/
theorem C9_result_zero_is_success (r : Int) :
    (ServiceModulePrivate.result r = Result.NoError ↔ r = 0) ∧
    (r ≠ 0 → ServiceModulePrivate.result r = Result.Unknown) ∧
    (ServiceModulePrivate.result r = Result.NoError ∨
      ServiceModulePrivate.result r = Result.Unknown) := by
  unfold ServiceModulePrivate.result
  by_cases h0 : r = 0
  · simp [h0]
  · by_cases h1 : r = 1
    · simp [h1]
    · simp [h0, h1]

end CoolQ

namespace MemberWelcome

open CoolQ

/-! ## The welcome store: lemmas -/

theorem wrapInt64_of_inRange (x : Int) (h1 : -2 ^ 63 ≤ x) (h2 : x < 2 ^ 63) :
    wrapInt64 x = x := by
  unfold wrapInt64
  rw [Int.emod_eq_of_lt (by omega) (by omega)]
  omega

theorem isExpired_of_inRange (now stamp : Int) (h : StampInRange stamp) :
    isExpired now stamp = decide (stamp + 1800000 < now) := by
  unfold isExpired
  rw [wrapInt64_of_inRange _ (by have := h.1; omega) h.2]

/-- The sweep in closed form: what stays is the entries that are not expired,
what is appended is the keys of the expired entries, both in iteration
order. -/
theorem expiredMembers_eq (now : Int) (welcome : QHash Member Int)
    (members : List Member) :
    expiredMembers now welcome members =
      (welcome.filter (fun e => !isExpired now e.2),
       members ++ (welcome.filter (fun e => isExpired now e.2)).map Prod.fst) := by
  induction welcome generalizing members with
  | nil => simp [expiredMembers]
  | cons e rest ih =>
    obtain ⟨key, stamp⟩ := e
    by_cases h : isExpired now stamp = true
    · simp [expiredMembers, h, ih, List.filter_cons]
    · simp [expiredMembers, h, ih, List.filter_cons]

/-! ## The welcome store: the claim -/

/-- C10: for a welcome map (distinct keys, stamps for which adding the TTL
does not overflow) and a clock reading `now`, `MemberWelcome::expiredMembers`
removes from the map and appends to the output list every entry with
`stamp + 1800000 < now`; it keeps, with its stamp, every entry with
`now ≤ stamp + 1800000` (so every entry newer than the TTL); the output list is
its prior contents followed by keys of expired entries of the map only. -/
theorem C10_expired_members_swept (now : Int) (welcome : QHash Member Int)
    (members : List Member)
    (hkeys : (welcome.map Prod.fst).Nodup)
    (hrange : ∀ e, e ∈ welcome → StampInRange e.2) :
    (∀ key stamp, (key, stamp) ∈ welcome → stamp + 1800000 < now →
      QHash.contains (expiredMembers now welcome members).1 key = false ∧
      key ∈ (expiredMembers now welcome members).2) ∧
    (∀ key stamp, (key, stamp) ∈ welcome → now ≤ stamp + 1800000 →
      (key, stamp) ∈ (expiredMembers now welcome members).1 ∧
      QHash.value (expiredMembers now welcome members).1 key = some stamp) ∧
    (∃ added, (expiredMembers now welcome members).2 = members ++ added ∧
      ∀ key, key ∈ added → ∃ stamp, (key, stamp) ∈ welcome ∧ stamp + 1800000 < now) := by
  rw [expiredMembers_eq]
  have hexp : ∀ e, e ∈ welcome → (isExpired now e.2 = true ↔ e.2 + 1800000 < now) := by
    intro e he
    rw [isExpired_of_inRange now e.2 (hrange e he)]
    simp
  have hsame : ∀ key s1 s2, (key, s1) ∈ welcome → (key, s2) ∈ welcome → s1 = s2 := by
    intro key s1 s2 h1 h2
    have v1 := QHash.value_of_mem welcome key s1 hkeys h1
    have v2 := QHash.value_of_mem welcome key s2 hkeys h2
    rw [v1] at v2
    exact Option.some.inj v2
  refine ⟨?_, ?_, ?_⟩
  · intro key stamp hmem hold
    constructor
    · rw [QHash.contains_eq_false_iff]
      intro e he hkey
      rw [List.mem_filter] at he
      obtain ⟨ek, es⟩ := e
      simp only at hkey
      subst hkey
      have hs := hsame ek es stamp he.1 hmem
      subst hs
      have := (hexp (ek, es) hmem).mpr hold
      simp [this] at he
    · apply List.mem_append_right
      rw [List.mem_map]
      exact ⟨(key, stamp), List.mem_filter.mpr ⟨hmem, (hexp (key, stamp) hmem).mpr hold⟩, rfl⟩
  · intro key stamp hmem hnew
    have hnot : isExpired now stamp = false := by
      rw [Bool.eq_false_iff]
      intro h
      have := (hexp (key, stamp) hmem).mp h
      omega
    have hin : (key, stamp) ∈ welcome.filter (fun e => !isExpired now e.2) :=
      List.mem_filter.mpr ⟨hmem, by simp [hnot]⟩
    refine ⟨hin, QHash.value_of_mem _ key stamp ?_ hin⟩
    exact hkeys.sublist ((List.filter_sublist welcome).map Prod.fst)
  · refine ⟨_, rfl, ?_⟩
    intro key hkey
    rw [List.mem_map] at hkey
    obtain ⟨e, he, rfl⟩ := hkey
    rw [List.mem_filter] at he
    exact ⟨e.2, he.1, (hexp e he.1).mp he.2⟩

/-- C10, at a sample map and time 3000000: the entries stamped 0 and 1000000
are swept, the entry stamped 5000000 stays, and the member already in the
output list is still there. -/
theorem C10_expired_members_swept_witness :
    (expiredMembers 3000000 sampleWelcome [(9, 9)]).1 = [((2, 10), 5000000)] ∧
    (expiredMembers 3000000 sampleWelcome [(9, 9)]).2 = [(9, 9), (1, 10), (1, 11)] ∧
    QHash.contains (expiredMembers 3000000 sampleWelcome [(9, 9)]).1 (1, 11) = false ∧
    (1, 11) ∈ (expiredMembers 3000000 sampleWelcome [(9, 9)]).2 ∧
    QHash.value (expiredMembers 3000000 sampleWelcome [(9, 9)]).1 (2, 10) = some 5000000 :=
  have h := C10_expired_members_swept 3000000 sampleWelcome [(9, 9)] (by decide)
    (by intro e he
        simp only [sampleWelcome, List.mem_cons, List.mem_singleton, List.not_mem_nil,
          or_false] at he
        rcases he with rfl | rfl | rfl <;> (unfold StampInRange; constructor <;> norm_num))
  ⟨by decide, by decide,
   (h.1 (1, 11) 1000000 (by decide) (by decide)).1,
   (h.1 (1, 11) 1000000 (by decide) (by decide)).2,
   (h.2.1 (2, 10) 5000000 (by decide) (by decide)).2⟩

/-! ## The welcome store: insertion and removal -/

theorem mirrors_addMember (gid uid now : Int) (sqlOk : Bool) (s : Store)
    (h : Mirrors s) : Mirrors (addMember gid uid now sqlOk s).2 := by
  unfold addMember
  by_cases hc : QHash.contains s.welcome (gid, uid) = true
  · simpa [hc] using h
  · cases sqlOk
    · simpa [hc] using h
    · simp only [hc, Bool.not_true, Bool.not_false, Bool.false_eq_true, if_true, if_false]
      intro m
      rw [QHash.value_insert, QHash.value_insert, h m]

theorem mirrors_removeMember (gid uid : Int) (sqlOk : Bool) (s : Store)
    (h : Mirrors s) : Mirrors (removeMember gid uid sqlOk s).2 := by
  unfold removeMember
  by_cases hc : QHash.contains s.welcome (gid, uid) = true
  · cases sqlOk
    · simpa [hc] using h
    · simp only [hc, Bool.not_true, Bool.false_eq_true, if_true, if_false]
      intro m
      rw [QHash.value_remove, QHash.value_remove, h m]
  · simpa [hc] using h

/-- Insertions and removals, with writes that succeed or fail, keep the map
and the table in agreement. -/
theorem mirrors_runMutations_of_no_sweep (ms : List Mutation) (s : Store)
    (hno : ∀ m, m ∈ ms → ∀ now, m ≠ Mutation.sweep now) (h : Mirrors s) :
    Mirrors (runMutations ms s) := by
  induction ms generalizing s with
  | nil => exact h
  | cons m ms ih =>
    have hstep : Mirrors (m.apply s) := by
      cases m with
      | add gid uid now sqlOk => exact mirrors_addMember gid uid now sqlOk s h
      | remove gid uid sqlOk => exact mirrors_removeMember gid uid sqlOk s h
      | sweep now => exact absurd rfl (hno (Mutation.sweep now) (by simp) now)
    exact ih (m.apply s) (fun m2 hm2 => hno m2 (by simp [hm2])) hstep

/-- C11: when the durable write of `addMember` (issued for a member that is not
in the map) or of `removeMember` (issued for a member that is in the map)
fails, the operation returns `SqlError` and the store, the in-memory map
included, is what it was before the call; and whenever one of the two
operations leaves a different in-memory map behind, its write has succeeded
and it returns `Done`. -/
theorem C11_failed_write_leaves_map_unchanged (s : Store) (gid uid now : Int) :
    (QHash.contains s.welcome (gid, uid) = false →
      (addMember gid uid now false s).1 = SqlResult.SqlError ∧
      (addMember gid uid now false s).2 = s) ∧
    (QHash.contains s.welcome (gid, uid) = true →
      (removeMember gid uid false s).1 = SqlResult.SqlError ∧
      (removeMember gid uid false s).2 = s) ∧
    (∀ sqlOk, (addMember gid uid now sqlOk s).2.welcome ≠ s.welcome →
      sqlOk = true ∧ (addMember gid uid now sqlOk s).1 = SqlResult.Done) ∧
    (∀ sqlOk, (removeMember gid uid sqlOk s).2.welcome ≠ s.welcome →
      sqlOk = true ∧ (removeMember gid uid sqlOk s).1 = SqlResult.Done) := by
  refine ⟨?_, ?_, ?_, ?_⟩
  · intro hc
    simp [addMember, hc]
  · intro hc
    simp [removeMember, hc]
  · intro sqlOk hne
    unfold addMember at hne ⊢
    by_cases hc : QHash.contains s.welcome (gid, uid) = true
    · simp [hc] at hne
    · cases sqlOk
      · simp [hc] at hne
      · simp [hc]
  · intro sqlOk hne
    unfold removeMember at hne ⊢
    by_cases hc : QHash.contains s.welcome (gid, uid) = true
    · cases sqlOk
      · simp [hc] at hne
      · simp [hc]
    · simp [hc] at hne

/-- C11, at sample inputs: a failed insertion of member `(2, 20)` and a failed
removal of member `(1, 10)` on the sample store. -/
theorem C11_failed_write_leaves_map_unchanged_witness :
    ((addMember 2 20 7 false sampleStore).1 = SqlResult.SqlError ∧
      (addMember 2 20 7 false sampleStore).2 = sampleStore) ∧
    ((removeMember 1 10 false sampleStore).1 = SqlResult.SqlError ∧
      (removeMember 1 10 false sampleStore).2 = sampleStore) :=
  ⟨(C11_failed_write_leaves_map_unchanged sampleStore 2 20 7).1 (by decide),
   (C11_failed_write_leaves_map_unchanged sampleStore 1 10 7).2.1 (by decide)⟩

/-- C12 fails on the expiry sweep.  The sample store is what one successful
`addMember` at time 0 makes of the empty store, and its map mirrors its table;
one sweep at time 3000000 removes the member from the map and leaves its row in
the table, so the two no longer agree. -/
theorem C12_sweep_leaves_row_in_table :
    (addMember 1 10 0 true emptyStore).2 = sampleStore ∧
    Mirrors sampleStore ∧
    runMutations [Mutation.sweep 3000000] sampleStore =
      { welcome := [], table := [((1, 10), 0)] } ∧
    ¬ Mirrors (runMutations [Mutation.sweep 3000000] sampleStore) := by
  refine ⟨by decide, fun _ => rfl, by decide, ?_⟩
  intro h
  have := h (1, 10)
  revert this
  decide

/-- C13 as stated fails.  On the sample store, where member `(1, 10)` was
welcomed at time 0, `removeMember` and then `addMember` at time 5 both return
`Done`, and the snapshot then holds the stamp 5 for the member, not 0. -/
theorem C13_counterexample :
    QHash.contains sampleStore.welcome (1, 10) = true ∧
    (removeMember 1 10 true sampleStore).1 = SqlResult.Done ∧
    (addMember 1 10 5 true (removeMember 1 10 true sampleStore).2).1 = SqlResult.Done ∧
    QHash.value (members sampleStore) (1, 10) = some 0 ∧
    QHash.value (members (addMember 1 10 5 true (removeMember 1 10 true sampleStore).2).2)
      (1, 10) = some 5 := by
  decide

/-- C13, amended: for a store that contains a member, with both durable writes
succeeding, `removeMember` and then `addMember` both return `Done`; the
snapshot afterwards holds the member again, stamped with the clock reading of
the re-insertion, and holds for every other member what it held before. -/
theorem C13_remove_then_add (s : Store) (gid uid now : Int)
    (hin : QHash.contains s.welcome (gid, uid) = true) :
    (removeMember gid uid true s).1 = SqlResult.Done ∧
    (addMember gid uid now true (removeMember gid uid true s).2).1 = SqlResult.Done ∧
    QHash.value (members (addMember gid uid now true (removeMember gid uid true s).2).2)
      (gid, uid) = some now ∧
    ∀ m, m ≠ (gid, uid) →
      QHash.value (members (addMember gid uid now true (removeMember gid uid true s).2).2) m =
        QHash.value (members s) m := by
  have hrem : removeMember gid uid true s =
      (SqlResult.Done, { welcome := QHash.remove s.welcome (gid, uid),
                         table := QHash.remove s.table (gid, uid) }) := by
    simp [removeMember, hin]
  have hadd : addMember gid uid now true (removeMember gid uid true s).2 =
      (SqlResult.Done,
       { welcome := QHash.insert (QHash.remove s.welcome (gid, uid)) (gid, uid) now,
         table := QHash.insert (QHash.remove s.table (gid, uid)) (gid, uid) now }) := by
    rw [hrem]
    simp [addMember, QHash.contains_remove_self]
  rw [hadd, hrem]
  refine ⟨rfl, rfl, ?_, ?_⟩
  · simp [members, QHash.value_insert]
  · intro m hm
    have hm2 : ¬ (gid, uid) = m := fun h => hm h.symm
    simp only [members]
    rw [QHash.value_insert, if_neg hm2, QHash.value_remove, if_neg hm2]

/-- C13 amended, at the sample store with the re-insertion at time 5. -/
theorem C13_remove_then_add_witness :
    (removeMember 1 10 true sampleStore).1 = SqlResult.Done ∧
    (addMember 1 10 5 true (removeMember 1 10 true sampleStore).2).1 = SqlResult.Done ∧
    QHash.value (members (addMember 1 10 5 true (removeMember 1 10 true sampleStore).2).2)
      (1, 10) = some 5 :=
  have h := C13_remove_then_add sampleStore 1 10 5 (by decide)
  ⟨h.1, h.2.1, h.2.2.1⟩

end MemberWelcome

namespace CoolQ

/-! ## Audience isolation -/

section Isolation

variable {σ : Type}

theorem handles_of_declaresKey (env : Env σ) (a : Audience) (key : QByteArray)
    (f : FilterPtr) (h : declaresKey env a key f = true) : env.handles a f = true := by
  unfold declaresKey at h
  rw [Bool.and_eq_true] at h
  exact h.1

theorem handles_of_isCatchAll (env : Env σ) (a : Audience) (f : FilterPtr)
    (h : isCatchAll env a f = true) : env.handles a f = true := by
  unfold isCatchAll at h
  rw [Bool.and_eq_true] at h
  exact h.1

/-- A key found in the index after the classification loop was there before or
belongs to a filter of the loop that declares it. -/
theorem index_foldl_classify_some (env : Env σ) (b : Audience) (fs : List FilterPtr)
    (d : ServiceModulePrivate) (key : QByteArray) (f : FilterPtr)
    (h : QHash.value ((fs.foldl (classify env) d).index b) key = some f) :
    QHash.value (d.index b) key = some f ∨
      (f ∈ fs ∧ declaresKey env b key f = true) := by
  induction fs generalizing d with
  | nil => left; simpa using h
  | cons g gs ih =>
    rw [List.foldl_cons] at h
    rcases ih (classify env d g) h with h1 | ⟨h2, h3⟩
    · rw [value_index_classify] at h1
      by_cases hg : declaresKey env b key g = true
      · rw [if_pos hg] at h1
        have hfg : g = f := Option.some.inj h1
        subst hfg
        exact Or.inr ⟨by simp, hg⟩
      · rw [if_neg hg] at h1
        exact Or.inl h1
    · exact Or.inr ⟨by simp [h2], h3⟩

theorem keywordLoop_calls_mem (h : FilterPtr → Nat → MessageEvent → σ → Bool × σ)
    (idx : QHash QByteArray FilterPtr) (ev : MessageEvent) (n i : Nat) (w : σ)
    (c : Call) (hc : c ∈ (keywordLoop h idx ev n i w).calls) :
    (∃ key, c = Call.lookup key) ∨
      ∃ f p, c = Call.handler f p ∧ QHash.value idx (ev.gbkMsg.take p) = some f := by
  induction n generalizing i with
  | zero => simp [keywordLoop] at hc
  | succ n ih =>
    by_cases hs : isSeparator ev i = true
    · cases hv : QHash.value idx (ev.gbkMsg.take i) with
      | none =>
        simp only [keywordLoop, hs, if_true, hv, List.mem_cons] at hc
        rcases hc with hc | hc
        · exact Or.inl ⟨_, hc⟩
        · exact ih (i + 1) hc
      | some f =>
        simp only [keywordLoop, hs, if_true, hv, List.mem_cons, List.mem_singleton,
          List.not_mem_nil, or_false] at hc
        rcases hc with hc | hc
        · exact Or.inl ⟨_, hc⟩
        · exact Or.inr ⟨f, i, hc, hv⟩
    · simp only [keywordLoop, hs, Bool.false_eq_true, if_false] at hc
      exact ih (i + 1) hc

theorem messageEvent_calls_mem (h : FilterPtr → Nat → MessageEvent → σ → Bool × σ)
    (chain : List FilterPtr) (idx : QHash QByteArray FilterPtr) (ev : MessageEvent)
    (w : σ) (c : Call) (hc : c ∈ (messageEvent h chain idx ev w).calls) :
    c ∈ (catchAllLoop h ev chain w).calls ∨
      c ∈ (keywordLoop h idx ev 33 0 (catchAllLoop h ev chain w).world).calls := by
  unfold messageEvent at hc
  by_cases hr : (catchAllLoop h ev chain w).result = true
  · simp only [hr, if_true] at hc
    exact Or.inl hc
  · have hr0 : (catchAllLoop h ev chain w).result = false := by simpa using hr
    simp only [hr0, Bool.false_eq_true, if_false, List.mem_append] at hc
    exact hc

/-- C14: in a state produced by a successful `ServiceModule::initialize` that
started with the six containers empty, the message-event handler of an audience
calls only handlers of registered filters whose flags include that audience; a
filter whose flags do not include it is never called, whatever its keywords and
whatever the message bytes. -/
theorem C14_handler_calls_only_filters_of_its_audience (env : Env σ)
    (d : ServiceModulePrivate) (w0 : σ) (a : Audience) (ev : MessageEvent) (w : σ)
    (hchains : ∀ b, d.chain b = [])
    (hindex : ∀ b, d.index b = [])
    (hok : (initializeModule env d w0).1 = true) :
    (∀ f hint,
      Call.handler f hint ∈ (handleMessage env a (initializeModule env d w0).2.1 ev w).calls →
        f ∈ d.filters ∧ env.handles a f = true) ∧
    (∀ f, env.handles a f = false → ∀ hint,
      Call.handler f hint ∉ (handleMessage env a (initializeModule env d w0).2.1 ev w).calls) := by
  have hd := initializeModule_of_success env d w0 hok
  have hmain : ∀ f hint,
      Call.handler f hint ∈ (handleMessage env a (initializeModule env d w0).2.1 ev w).calls →
        f ∈ d.filters ∧ env.handles a f = true := by
    intro f hint hc
    rw [handleMessage_eq, hd] at hc
    rcases messageEvent_calls_mem _ _ _ ev w _ hc with h1 | h2
    · obtain ⟨g, hg, hcg⟩ := catchAllLoop_calls_mem _ ev _ w _ h1
      rw [chain_foldl_classify, hchains a, List.nil_append, List.mem_filter] at hg
      cases hcg
      exact ⟨hg.1, handles_of_isCatchAll env a f hg.2⟩
    · rcases keywordLoop_calls_mem _ _ ev 33 0 _ _ h2 with ⟨key, hk⟩ | ⟨g, p, hcg, hv⟩
      · cases hk
      · cases hcg
        rcases index_foldl_classify_some env a d.filters d _ f hv with h3 | ⟨h4, h5⟩
        · rw [hindex a] at h3
          simp [QHash.value] at h3
        · exact ⟨h4, handles_of_declaresKey env a _ f h5⟩
  refine ⟨hmain, ?_⟩
  intro f hf hint hc
  have := (hmain f hint hc).2
  rw [hf] at this
  cases this

/-- C14, at a sample input: filters `[1, 7, 8]` are registered, filter 8
handles group messages only and declares the keyword `a b`; the private handler
on the buffer `a b` does not call it with the hint 3 of that keyword. -/
theorem C14_handler_calls_only_filters_of_its_audience_witness :
    Call.handler 8 3 ∉
      (handleMessage groupOnlyEnv .Private
        (initializeModule groupOnlyEnv { emptyModule with filters := [1, 7, 8] } 0).2.1
        spacedEvent 0).calls :=
  (C14_handler_calls_only_filters_of_its_audience groupOnlyEnv
    { emptyModule with filters := [1, 7, 8] } 0 .Private spacedEvent 0
    (by intro b; cases b <;> rfl) (by intro b; cases b <;> rfl) (by decide)).2 8
    (by decide) 3

end Isolation

/-! ## `ServiceModule::emojiChar`: the claim -/

theorem toChar_mask_or (x : Nat) : toChar ((x &&& 0x3f) ||| 0x80) = 0x80 + x % 64 := by
  have hmask : x &&& 0x3f = x % 64 := Nat.and_pow_two_sub_one_eq_mod x 6
  have hor : ∀ b, b < 64 → b ||| 128 = 128 + b := by decide
  have hlt : x % 64 < 64 := Nat.mod_lt _ (by decide)
  rw [hmask]
  show (x % 64 ||| 128) % 256 = 128 + x % 64
  rw [hor _ hlt]
  omega

/-- The bytes of `emojiChar` in arithmetic form. -/
theorem emojiChar_eq (v : Int) (h0 : 0 ≤ v) (h1 : v ≤ 0x10FFFF) :
    emojiChar v =
      [0xF0, 0x80 + v.toNat / 4096 % 64, 0x80 + v.toNat / 64 % 64, 0x80 + v.toNat % 64, 0] := by
  have hpat : (v % 2 ^ 32).toNat = v.toNat := by
    rw [Int.emod_eq_of_lt h0 (by omega)]
  unfold emojiChar
  rw [hpat, toChar_mask_or, toChar_mask_or, toChar_mask_or]
  simp only [Nat.shiftRight_eq_div_pow]
  norm_num [toChar]

/-- C15: for `0 ≤ v ≤ 0x10FFFF`, the four bytes `emojiChar` writes before the
terminator are the standard UTF-8 encoding of the code point `v` exactly when
`0x10000 ≤ v ≤ 0x3FFFF`. -/
theorem C15_emojiChar_is_utf8_only_up_to_0x3FFFF (v : Int)
    (h0 : 0 ≤ v) (h1 : v ≤ 0x10FFFF) :
    utf8Encode v.toNat = some ((emojiChar v).take 4) ↔ (0x10000 ≤ v ∧ v ≤ 0x3FFFF) := by
  rw [emojiChar_eq v h0 h1]
  have hn : v = (v.toNat : Int) := (Int.toNat_of_nonneg h0).symm
  generalize v.toNat = n at hn ⊢
  subst hn
  have hle : n ≤ 0x10FFFF := by omega
  simp only [List.take, utf8Encode]
  by_cases c1 : n < 0x80
  · simp only [c1, if_true]
    constructor
    · intro h
      simp at h
    · intro h
      omega
  · by_cases c2 : n < 0x800
    · simp only [c1, c2, if_true, if_false]
      constructor
      · intro h
        simp at h
      · intro h
        omega
    · by_cases c3 : n < 0x10000
      · simp only [c1, c2, c3, if_true, if_false]
        constructor
        · intro h
          split at h <;> simp at h
        · intro h
          omega
      · simp only [c1, c2, c3, hle, if_true, if_false]
        constructor
        · intro h
          simp only [Option.some.injEq, List.cons.injEq] at h
          have := h.1
          omega
        · intro h
          have h3 : n / 262144 = 0 := by omega
          simp [h3]

/-- C15, at the code points `0x1F600` (encoded as it should be) and `0x40000`
(not so). -/
theorem C15_emojiChar_is_utf8_only_up_to_0x3FFFF_witness :
    utf8Encode 0x1F600 = some ((emojiChar 0x1F600).take 4) ∧
    utf8Encode 0x40000 ≠ some ((emojiChar 0x40000).take 4) :=
  ⟨(C15_emojiChar_is_utf8_only_up_to_0x3FFFF 0x1F600 (by decide) (by decide)).mpr
      ⟨by decide, by decide⟩,
   fun h => absurd
     ((C15_emojiChar_is_utf8_only_up_to_0x3FFFF 0x40000 (by decide) (by decide)).mp h).2
     (by decide)⟩

end CoolQ
